import Mathlib

set_option autoImplicit false

namespace DataDebat

/-!
Shallow embedding of the DataDebat ETL transformer
(src/etl/transform.py, class ANDebatsTransformer) and of the
Elasticsearch bulk writer (src/db/es_connection.py, class ESConnection).

XML element trees (Python xml.etree.ElementTree) are modelled by `Elem`:
a tag, an attribute list, optional text, a child list, and optional tail
text (the text following the element inside its parent, as in ElementTree).
All string manipulation is modelled over `List Char` with `String` wrappers,
mirroring the Python code character by character.
-/

/-- One XML element: tag, attributes, text, children, tail. -/
inductive Elem : Type where
  | node (tag : String) (attrs : List (String × String)) (text : Option String)
      (children : List Elem) (tail : Option String) : Elem

def Elem.tag : Elem → String
  | .node t _ _ _ _ => t

def Elem.attrs : Elem → List (String × String)
  | .node _ a _ _ _ => a

def Elem.text : Elem → Option String
  | .node _ _ x _ _ => x

def Elem.children : Elem → List Elem
  | .node _ _ _ c _ => c

def Elem.tail : Elem → Option String
  | .node _ _ _ _ tl => tl

/-- Attribute lookup, `elem.get(key)`. -/
def getAttr (e : Elem) (k : String) : Option String :=
  (e.attrs.find? (fun kv => kv.1 == k)).map (fun kv => kv.2)

/-- Attribute lookup with default, `elem.get(key, default)`. -/
def getAttrD (e : Elem) (k d : String) : String :=
  (getAttr e k).getD d

/-- Direct children with a given tag, `elem.findall("./Tag")`. -/
def childrenTagged (e : Elem) (t : String) : List Elem :=
  e.children.filter (fun c => c.tag == t)

/-- First direct child with a given tag, `elem.find("Tag")`. -/
def findChild (e : Elem) (t : String) : Option Elem :=
  (childrenTagged e t).head?

mutual

/-- The element followed by all its descendants, in document (preorder) order. -/
def selfAndDesc : Elem → List Elem
  | .node t a x cs tl => .node t a x cs tl :: descList cs

/-- All elements of a forest together with their descendants, preorder. -/
def descList : List Elem → List Elem
  | [] => []
  | c :: cs => selfAndDesc c ++ descList cs

end

/-- All proper descendants of an element in document order. -/
def descendants (e : Elem) : List Elem :=
  descList e.children

/-- All descendants with a given tag, `elem.findall(".//Tag")`. -/
def findAllDesc (e : Elem) (t : String) : List Elem :=
  (descendants e).filter (fun c => c.tag == t)

/-- First descendant with a given tag, `elem.find(".//Tag")`. -/
def findDesc (e : Elem) (t : String) : Option Elem :=
  (findAllDesc e t).head?

/-! ### Character-list models of the Python string operations -/

/-- Python `str.strip()`: drop leading and trailing whitespace. -/
def stripChars (cs : List Char) : List Char :=
  ((cs.dropWhile Char.isWhitespace).reverse.dropWhile Char.isWhitespace).reverse

/-- Python `str.strip()` on strings. -/
def pyStrip (s : String) : String :=
  String.mk (stripChars s.toList)

/-- Model of one pass of `re.sub(r"\s+", " ", text)`: every maximal whitespace
run is replaced by a single space.  The boolean records whether the previous
character belonged to a whitespace run. -/
def collapseWs : Bool → List Char → List Char
  | _, [] => []
  | prevWs, c :: cs =>
    if c.isWhitespace then
      if prevWs then collapseWs true cs else ' ' :: collapseWs true cs
    else c :: collapseWs false cs

/-- Python `str.split(sep)` for a one-character separator (keeps empty parts,
returns one part for the empty string). -/
def splitOnChar (sep : Char) : List Char → List (List Char)
  | [] => [[]]
  | c :: cs =>
    let r := splitOnChar sep cs
    if c = sep then [] :: r
    else
      match r with
      | [] => [[c]]
      | h :: t => (c :: h) :: t

/-- Python `" ".join(parts)`. -/
def joinSp : List (List Char) → List Char
  | [] => []
  | [x] => x
  | x :: y :: rest => x ++ ' ' :: joinSp (y :: rest)

/-- Python `str.zfill(2)`: left-pad with zeros to width 2, keeping a leading
sign in front of the padding. -/
def pyZfill2 (l : List Char) : List Char :=
  match l with
  | [] => ['0', '0']
  | [c] => if c = '+' ∨ c = '-' then [c, '0'] else ['0', c]
  | l => l

/-- Case-insensitive comparison model: ASCII lowercase each character
(Python `str.lower()` / `re.IGNORECASE`, restricted to ASCII letters). -/
def lowerList (cs : List Char) : List Char :=
  cs.map Char.toLower

/-- Python `sub in s` substring containment on character lists. -/
def containsSeq (pat : List Char) : List Char → Bool
  | [] => pat.isEmpty
  | c :: cs => pat.isPrefixOf (c :: cs) || containsSeq pat cs

/-- Python `sub in s` on strings. -/
def containsStr (s sub : String) : Bool :=
  containsSeq sub.toList s.toList

/-- Value of a digit string (only used under an all-digits guard). -/
def digitsToNat (cs : List Char) : Nat :=
  cs.foldl (fun n c => 10 * n + (c.toNat - 48)) 0

/-- Model of Python `int(str)`: optional surrounding whitespace, optional
sign, then one or more digits; anything else raises (here: `none`). -/
def pyInt (s : String) : Option Int :=
  let t := stripChars s.toList
  match t with
  | '-' :: ds =>
    if ds ≠ [] ∧ ds.all Char.isDigit then some (-(digitsToNat ds : Int)) else none
  | '+' :: ds =>
    if ds ≠ [] ∧ ds.all Char.isDigit then some ((digitsToNat ds : Int)) else none
  | ds =>
    if ds ≠ [] ∧ ds.all Char.isDigit then some ((digitsToNat ds : Int)) else none

/-- Python `int(elem.text)` where `text` may be `None` (then `int` raises). -/
def pyIntOfText (t : Option String) : Option Int :=
  match t with
  | none => none
  | some s => pyInt s

/-! ### ANDebatsTransformer.parse_date -/

/-- `ANDebatsTransformer.parse_date`: split on `-`; with at least three
tokens return `year-mm-dd` built from the last token, token 2 and token 1
(each `zfill(2)`-padded); otherwise (or on an exception) return `None`. -/
def parse_date (s : String) : Option String :=
  let parts := splitOnChar '-' s.toList
  if 3 ≤ parts.length then
    some (String.mk (parts.getLastD [] ++ '-' :: pyZfill2 (parts.getD 2 []) ++ '-' :: pyZfill2 (parts.getD 1 [])))
  else none

/-- `parse_date` applied to an optional text node: `parse_date(None)` hits the
bare `except` in the source and yields `None`. -/
def parse_date_opt (t : Option String) : Option String :=
  match t with
  | none => none
  | some s => parse_date s

/-! ### ANDebatsTransformer.clean_text -/

/-- `ANDebatsTransformer.clean_text` on a string: collapse whitespace runs to
single spaces and strip. -/
def cleanTextStr (s : String) : String :=
  String.mk (stripChars (collapseWs false s.toList))

/-- `clean_text` applied to an optional text node (`None` and `""` are falsy). -/
def clean_text (t : Option String) : String :=
  match t with
  | none => ""
  | some s => cleanTextStr s

/-! ### ANDebatsTransformer.remove_speaker_prefix -/

/-- Drop one leading period when present (the optional period of the
name-echo substitution). -/
def dropOptPeriod : List Char → List Char
  | '.' :: r => r
  | r => r

/-- Model of the anchored case-insensitive substitution of the escaped
speaker name: if the text starts (case-insensitively) with the literal name,
remove it, an optional following period and any following whitespace. -/
def stripNameList (nom text : List Char) : List Char :=
  if (lowerList nom).isPrefixOf (lowerList text) then
    (dropOptPeriod (text.drop nom.length)).dropWhile Char.isWhitespace
  else text

/-- The leading title alternation of the generic speaker pattern: the text
after a leading M-period, Mme or Mlle, or `none` when no title matches. -/
def titleSplit : List Char → Option (List Char)
  | 'M' :: '.' :: r => some r
  | 'M' :: 'm' :: 'e' :: r => some r
  | 'M' :: 'l' :: 'l' :: 'e' :: r => some r
  | _ => none

/-- Model of the generic substitution removing a leading
title-plus-short-name pattern (the regex with the M-period, Mme, Mlle
alternation, an optional extra period, one or more whitespace characters,
one or more non-period characters and a closing period).  After the title
and the optional period, the regex needs a first character of whitespace and
at least two characters before the first period (the whitespace run and at
least one more non-period character); it then consumes up to and including
that period plus trailing whitespace. -/
def stripGenericList (text : List Char) : List Char :=
  match titleSplit text with
  | none => text
  | some r0 =>
    let r := match r0 with
      | '.' :: r' => r'
      | r' => r'
    match r with
    | [] => text
    | c :: _ =>
      if c.isWhitespace then
        let pre := r.takeWhile (fun d => d ≠ '.')
        let post := r.dropWhile (fun d => d ≠ '.')
        if 2 ≤ pre.length then
          match post with
          | '.' :: rest => rest.dropWhile Char.isWhitespace
          | _ => text
        else text
      else text

/-- `ANDebatsTransformer.remove_speaker_prefix` (named `remove_speaker_echo`
here): strip a leading echo of the speaker's name, then a generic
"title short-name period" pattern, then surrounding whitespace.
`orateur_nom` of `None` or `""` is falsy and skips the name strip;
`echoInput` is the text after the (possibly skipped) name substitution. -/
def echoInput (text : List Char) : Option String → List Char
  | none => text
  | some n => if n.toList.isEmpty then text else stripNameList n.toList text

def remove_speaker_echo (text : String) (orateur_nom : Option String) : String :=
  if text.toList.isEmpty then ""
  else String.mk (stripChars (stripGenericList (echoInput text.toList orateur_nom)))

/-! ### ANDebatsTransformer.extract_text_recursive -/

/-- One `texts` entry for an optional text/tail value: Python appends it only
when truthy (non-`None` and non-empty). -/
def optPiece (t : Option String) : List (List Char) :=
  match t with
  | none => []
  | some s => if s.toList.isEmpty then [] else [s.toList]

mutual

/-- The `texts` list built by `extract_text_recursive`: the element's own
text, then for each child its recursively joined text (always appended)
followed by the child's tail when truthy. -/
def textPieces : Elem → List (List Char)
  | .node _ _ txt cs _ => optPiece txt ++ tailPieces cs

/-- Pieces contributed by a child list inside `extract_text_recursive`. -/
def tailPieces : List Elem → List (List Char)
  | [] => []
  | c :: cs => joinSp (textPieces c) :: (optPiece c.tail ++ tailPieces cs)

end

/-- `ANDebatsTransformer.extract_text_recursive`: `" ".join(texts)`. -/
def extract_text_recursive (e : Elem) : String :=
  String.mk (joinSp (textPieces e))

/-! ### ANDebatsTransformer.extract_orateur -/

/-- Speaker info extracted from a `Para` element. -/
structure OrateurInfo where
  nom : Option String
  fonction : Option String
  deriving DecidableEq

/-- `ANDebatsTransformer.extract_orateur`: first `Orateur` descendant, its
direct `Nom` child, cleaned name text, and a role inferred from keywords in
the lowercased name (`Député` as the default when a name is present). -/
def extract_orateur (para : Elem) : OrateurInfo :=
  match findDesc para "Orateur" with
  | none => { nom := none, fonction := none }
  | some o =>
    match findChild o "Nom" with
    | none => { nom := none, fonction := none }
    | some nomElem =>
      let nom := clean_text nomElem.text
      if nom.toList.isEmpty then { nom := some nom, fonction := none }
      else
        let low := String.mk (lowerList nom.toList)
        { nom := some nom,
          fonction := some
            (if containsStr low "président" then "Président"
             else if containsStr low "ministre" then "Ministre"
             else if containsStr low "secrétaire" then "Secrétaire"
             else "Député") }

/-! ### ANDebatsTransformer.extract_metadata

The Python function fills a dict; a key can be absent (field `none`) or
present with value `None` (field `some none` for text/date fields).  The
`int(...)` conversions are not guarded, so non-numeric text raises out of
`extract_metadata`; this is modelled with `Except Unit`. -/

/-- The metadata dict filled by `extract_metadata`. -/
structure Metadata where
  publication_numero : Option Int := none
  date_parution : Option (Option String) := none
  date_seance : Option (Option String) := none
  annee : Option Int := none
  mois : Option Int := none
  session_nom : Option (Option String) := none
  session_parlementaire : Option (Option String) := none
  legislature : Option Int := none
  numero_premiere_page : Option Int := none
  deriving DecidableEq

/-- `int(text)` as a step that can raise. -/
def reqInt (t : Option String) : Except Unit Int :=
  match pyIntOfText t with
  | some n => .ok n
  | none => .error ()

/-- `metadata["publication_numero"] = int(pub_num.text)` when the node exists. -/
def stepPublication (meta : Elem) (md : Metadata) : Except Unit Metadata :=
  match findChild meta "PublicationNumero" with
  | none => .ok md
  | some e => (reqInt e.text).map (fun n => { md with publication_numero := some n })

/-- `metadata["date_parution"] = parse_date(...)` when the node exists. -/
def stepDateParution (meta : Elem) (md : Metadata) : Except Unit Metadata :=
  match findChild meta "DateParution" with
  | none => .ok md
  | some e => .ok { md with date_parution := some (parse_date_opt e.text) }

/-- `metadata["date_seance"] = parse_date(...)`; when the parse succeeded,
also `annee`/`mois` from the ISO string's first two dash tokens (unguarded
`int`, may raise). -/
def stepDateSeance (meta : Elem) (md : Metadata) : Except Unit Metadata :=
  match findChild meta "DateSeance" with
  | none => .ok md
  | some e =>
    let md := { md with date_seance := some (parse_date_opt e.text) }
    match parse_date_opt e.text with
    | none => .ok md
    | some ds =>
      let parts := splitOnChar '-' ds.toList
      (reqInt (some (String.mk (parts.getD 0 [])))).bind (fun a =>
        (reqInt (some (String.mk (parts.getD 1 [])))).map (fun m =>
          { md with annee := some a, mois := some m }))

/-- `metadata["session_nom"] = session_nom.text` when the node exists. -/
def stepSessionNom (meta : Elem) (md : Metadata) : Except Unit Metadata :=
  match findChild meta "SessionNom" with
  | none => .ok md
  | some e => .ok { md with session_nom := some e.text }

/-- `metadata["session_parlementaire"] = ....text` when the node exists. -/
def stepSessionParl (meta : Elem) (md : Metadata) : Except Unit Metadata :=
  match findChild meta "SessionParlementaire" with
  | none => .ok md
  | some e => .ok { md with session_parlementaire := some e.text }

/-- `metadata["legislature"] = int(legislature.text)` when the node exists. -/
def stepLegislature (meta : Elem) (md : Metadata) : Except Unit Metadata :=
  match findChild meta "LegislatureNumero" with
  | none => .ok md
  | some e => (reqInt e.text).map (fun n => { md with legislature := some n })

/-- `metadata["numero_premiere_page"] = int(...)` when the node exists. -/
def stepPremierePage (meta : Elem) (md : Metadata) : Except Unit Metadata :=
  match findChild meta "NumeroPremierePage" with
  | none => .ok md
  | some e => (reqInt e.text).map (fun n => { md with numero_premiere_page := some n })

/-- `ANDebatsTransformer.extract_metadata`: first `Metadonnees` descendant,
then the seven field assignments in source order.  With no `Metadonnees`
node the empty dict is returned. -/
def extract_metadata (root : Elem) : Except Unit Metadata :=
  match findDesc root "Metadonnees" with
  | none => .ok {}
  | some meta =>
    (stepPublication meta {}).bind (stepDateParution meta) |>.bind (stepDateSeance meta)
      |>.bind (stepSessionNom meta) |>.bind (stepSessionParl meta)
      |>.bind (stepLegislature meta) |>.bind (stepPremierePage meta)

/-! ### ANDebatsTransformer.extract_vote -/

/-- The vote dict built by `extract_vote` (`vote_present: True` is implicit in
the record being present). -/
structure VoteData where
  nombre_votants : Option Int := none
  nombre_suffrages_exprimes : Option Int := none
  votes_pour : Option Int := none
  votes_contre : Option Int := none
  deriving DecidableEq

/-- `vote_elem.find(".//Tag/Valeur")`: descendants with the given tag, then
their direct `Valeur` children, first match in document order. -/
def findValeur (v : Elem) (t : String) : Option Elem :=
  ((findAllDesc v t).flatMap (fun d => childrenTagged d "Valeur")).head?

/-- One optional vote field: absent node leaves the dict unchanged, present
node goes through an unguarded `int(...)`. -/
def voteStep (v : Elem) (t : String) (set : VoteData → Int → VoteData) (vd : VoteData) :
    Except Unit VoteData :=
  match findValeur v t with
  | none => .ok vd
  | some e => (reqInt e.text).map (set vd)

/-- `ANDebatsTransformer.extract_vote`: first `ResultatVote` descendant of the
section (`none` when absent), then the four optional integer fields. -/
def extract_vote (section_elem : Elem) : Except Unit (Option VoteData) :=
  match findDesc section_elem "ResultatVote" with
  | none => .ok none
  | some v =>
    (voteStep v "NombreVotants" (fun vd n => { vd with nombre_votants := some n }) {}).bind
      (voteStep v "NombreSuffrageExprime" (fun vd n => { vd with nombre_suffrages_exprimes := some n }))
      |>.bind (voteStep v "Pour" (fun vd n => { vd with votes_pour := some n }))
      |>.bind (voteStep v "Contre" (fun vd n => { vd with votes_contre := some n }))
      |>.map some

/-! ### The paragraph assembler (_extract_paragraphs) -/

/-- The section/subsection context dict (`section_data` /
`sous_section_data`): the copied metadata plus overlay fields. -/
structure SectionCtx where
  md : Metadata := {}
  section_id : Option String := none
  section_titre : Option String := none
  sous_section_titre : Option String := none
  deriving DecidableEq

/-- One output document (`para_data`): the copied context dict plus the
paragraph fields.  The four vote fields exist for completeness of the record
schema; `extract_sections` in transform.py never sets them. -/
structure ParaRecord where
  ctx : SectionCtx := {}
  para_id : String := ""
  orateur_nom : Option String := none
  orateur_fonction : Option String := none
  extraction_timestamp : String := ""
  vote_present : Bool := false
  nombre_votants : Option Int := none
  nombre_suffrages_exprimes : Option Int := none
  votes_pour : Option Int := none
  votes_contre : Option Int := none
  texte : String := ""
  deriving DecidableEq

/-- Case 2 of `_extract_paragraphs`: build a fresh record for a new
paragraph id.  `datetime.now().isoformat()` is modelled by the run-supplied
timestamp `ts`. -/
def newRecord (base : SectionCtx) (ts : String) (pid : String) (p : Elem) : ParaRecord :=
  let oi := extract_orateur p
  { ctx := base
    para_id := pid
    orateur_nom := oi.nom
    orateur_fonction := oi.fonction
    extraction_timestamp := ts
    vote_present := false
    texte := remove_speaker_echo (extract_text_recursive p) oi.nom }

/-- Case 1 of `_extract_paragraphs`: append a continuation fragment (echo
stripped with the established speaker name) to the last record's text. -/
def appendCont (r : ParaRecord) (p : Elem) : ParaRecord :=
  { r with texte := r.texte ++ " " ++ remove_speaker_echo (extract_text_recursive p) r.orateur_nom }

/-- Direct `Para` children of a container (`parent_elem.findall("./Para")`). -/
def paraChildren (parent : Elem) : List Elem :=
  childrenTagged parent "Para"

/-- The loop of `_extract_paragraphs` after a first record has been emitted:
`cur` is the live `last_para_data`, still open for continuation merging. -/
def goRaw (base : SectionCtx) (ts : String) : List Elem → ParaRecord → List ParaRecord
  | [], cur => [cur]
  | p :: ps, cur =>
    match getAttr p "idsyceron" with
    | none => goRaw base ts ps cur
    | some pid =>
      if pid = cur.para_id then goRaw base ts ps (appendCont cur p)
      else cur :: goRaw base ts ps (newRecord base ts pid p)

/-- The loop of `_extract_paragraphs` while `last_para_data is None`. -/
def startRaw (base : SectionCtx) (ts : String) : List Elem → List ParaRecord
  | [] => []
  | p :: ps =>
    match getAttr p "idsyceron" with
    | none => startRaw base ts ps
    | some pid => goRaw base ts ps (newRecord base ts pid p)

/-- `ANDebatsTransformer._extract_paragraphs`. -/
def extract_paragraphs (parent : Elem) (base : SectionCtx) (ts : String) : List ParaRecord :=
  startRaw base ts (paraChildren parent)

/-! ### ANDebatsTransformer.extract_sections -/

/-- The section context built at the top of the section loop: copied
metadata, overlaid with `Ident` and the cleaned `Intitule` text when a
direct `TitreStruct` child exists. -/
def sectionCtxOf (md : Metadata) (s : Elem) : SectionCtx :=
  let sd0 : SectionCtx := { md := md }
  match findChild s "TitreStruct" with
  | none => sd0
  | some tst =>
    let sd1 := { sd0 with section_id := some (getAttrD tst "Ident" "") }
    match findDesc tst "Intitule" with
    | none => sd1
    | some inti => { sd1 with section_titre := some (cleanTextStr (extract_text_recursive inti)) }

/-- The subsection list of a section: all direct `SousSection1` children
followed by all direct `SousSection2` children (source order). -/
def subsOf (s : Elem) : List Elem :=
  childrenTagged s "SousSection1" ++ childrenTagged s "SousSection2"

/-- The subsection context: the section context with `sous_section_titre`
overlaid when the subsection carries a titled `TitreStruct`. -/
def ssCtxOf (sd : SectionCtx) (ss : Elem) : SectionCtx :=
  match findChild ss "TitreStruct" with
  | none => sd
  | some tst =>
    match findDesc tst "Intitule" with
    | none => sd
    | some inti => { sd with sous_section_titre := some (cleanTextStr (extract_text_recursive inti)) }

/-- The documents contributed by one section: per-subsection paragraph
extraction when subsections exist, direct extraction otherwise. -/
def sectionDocs (md : Metadata) (ts : String) (s : Elem) : List ParaRecord :=
  let sd := sectionCtxOf md s
  let subs := subsOf s
  if subs.isEmpty then extract_paragraphs s sd ts
  else subs.flatMap (fun ss => extract_paragraphs ss (ssCtxOf sd ss) ts)

/-- `ANDebatsTransformer.extract_sections`: all `Section` descendants in
document order, each contributing its documents. -/
def extract_sections (root : Elem) (md : Metadata) (ts : String) : List ParaRecord :=
  (findAllDesc root "Section").flatMap (sectionDocs md ts)

/-- The per-file transform of `process_taz_file` after unpacking: metadata
then sections; an exception from `extract_metadata` is caught by the
file-level handler, which returns an empty document list. -/
def pipelineDocs (tree : Elem) (ts : String) : List ParaRecord :=
  match extract_metadata tree with
  | .error _ => []
  | .ok md => extract_sections tree md ts

/-! ### ESConnection.bulk_index (src/db/es_connection.py)

The Elasticsearch store itself is an external collaborator; its per-record
bulk responses are modelled from the spec, while the action generation and
the error classification below them are modelled from `bulk_index`. -/

/-- The token `bulk_index` searches for in an error's string form. -/
def vceMsg : String := "version_conflict_engine_exception"

/-- A non-conflict rejection reason (a genuinely malformed record). -/
def malformedMsg : String := "mapper_parsing_exception"

/-- Modelled from the spec: the store's response to one `create` action
(`bulk_index` with `replace_existing=False`).  A record whose key already
exists is rejected with a version-conflict reason; a malformed record (an
abstract store-side predicate) is rejected with another reason; otherwise it
is indexed.  Records without a truthy `para_id` get an auto-generated id and
can never conflict. -/
def createOutcome (malformed : ParaRecord → Bool) (keys : List String) (d : ParaRecord) :
    Option String :=
  if d.para_id ≠ "" ∧ d.para_id ∈ keys then some vceMsg
  else if malformed d then some malformedMsg
  else none

/-- Modelled from the spec: keys present in the store after one action. -/
def createKeysAfter (keys : List String) (d : ParaRecord) (o : Option String) : List String :=
  match o with
  | some _ => keys
  | none => if d.para_id ≠ "" then d.para_id :: keys else keys

/-- Modelled from the spec: the per-record outcomes of one bulk request in
`create` mode, in document order (`none` = indexed, `some reason` =
rejected). -/
def createOutcomes (malformed : ParaRecord → Bool) :
    List String → List ParaRecord → List (Option String)
  | _, [] => []
  | keys, d :: ds =>
    let o := createOutcome malformed keys d
    o :: createOutcomes malformed (createKeysAfter keys d o) ds

/-- `ESConnection.bulk_index` with `replace_existing=False`: run the bulk
request without raising (`raise_on_error=False`), then classify the error
list: rejections whose string form does not contain the version-conflict
token are real errors, the rest are counted as skipped.  Returns
(success count, skipped count, real error count). -/
def bulk_index_create (malformed : ParaRecord → Bool) (keys : List String)
    (documents : List ParaRecord) : Nat × Nat × Nat :=
  let os := createOutcomes malformed keys documents
  let success := (os.filter (fun o => o.isNone)).length
  let errors := os.filterMap id
  let real_errors := errors.filter (fun e => !(containsStr e vceMsg))
  (success, errors.length - real_errors.length, real_errors.length)

/-! ### The replace-mode writer and the two-run pipeline (C9) -/

/-- The stored index: an association list keyed by document id, in insertion
order. -/
abbrev Store := List (String × ParaRecord)

/-- Look up a stored document by key. -/
def lookupStore : Store → String → Option ParaRecord
  | [], _ => none
  | kv :: t, k => if kv.1 = k then some kv.2 else lookupStore t k

/-- The key list of a store. -/
def storeKeys (st : Store) : List String :=
  st.map (fun kv => kv.1)

/-- Modelled from the spec: one `index` (upsert) action in `replace` mode:
overwrite in place when the key exists, append otherwise. -/
def upsert (st : Store) (k : String) (v : ParaRecord) : Store :=
  if k ∈ storeKeys st then st.map (fun kv => if kv.1 = k then (k, v) else kv)
  else st ++ [(k, v)]

/-- The auto-generated id for a record without a truthy `para_id` (abstract;
distinct per counter value). -/
def autoKey (n : Nat) : String :=
  String.mk ('#' :: List.replicate n '#')

/-- The `_id` used for one action: `para_id` when truthy, a fresh
auto-generated id otherwise. -/
def docKey (d : ParaRecord) (ctr : Nat) : String × Nat :=
  if d.para_id = "" then (autoKey ctr, ctr + 1) else (d.para_id, ctr)

/-- `ESConnection.bulk_index` with `replace_existing=True` over a store
state: upsert every document in order, keyed by `para_id` when truthy. -/
def bulkReplace : Store × Nat → List ParaRecord → Store × Nat
  | (st, ctr), [] => (st, ctr)
  | (st, ctr), d :: ds =>
    let kc := docKey d ctr
    bulkReplace (upsert st kc.1 d, kc.2) ds

/-- One full pipeline run over one archive file in `replace` mode:
transform the tree at wall-clock `ts`, then bulk-upsert the documents. -/
def runOnce (tree : Elem) (ts : String) (s : Store × Nat) : Store × Nat :=
  bulkReplace s (pipelineDocs tree ts)

/-! ### Derived definitions used by the theorems -/

/-- The containers whose direct `Para` children `extract_sections` actually
walks: each `Section` descendant without subsections, or its subsections. -/
def processedContainers (root : Elem) : List Elem :=
  (findAllDesc root "Section").flatMap (fun s => if (subsOf s).isEmpty then [s] else subsOf s)

/-- Whether a node carries the paragraph identifier attribute. -/
def hasParaId (c : Elem) : Bool :=
  (getAttr c "idsyceron").isSome

/-- The container with its identifier-less direct `Para` children removed
(non-`Para` children and id-bearing paragraphs are kept). -/
def removeIdlessParas : Elem → Elem
  | .node t a x cs tl => .node t a x (cs.filter (fun c => !(c.tag == "Para") || hasParaId c)) tl

mutual

/-- No text content anywhere in the subtree: no truthy own text, and every
child recursively text-free with no truthy tail. -/
def noOwnText : Elem → Bool
  | .node _ _ txt cs _ => (optPiece txt).isEmpty && noTextList cs

/-- Text-freeness of a child list (children and their tails). -/
def noTextList : List Elem → Bool
  | [] => true
  | c :: cs => noOwnText c && (optPiece c.tail).isEmpty && noTextList cs

end

/-- All paragraph identifiers carried by `Para` nodes anywhere in the tree
(the root included), in document order. -/
def paraIdsInTree (t : Elem) : List String :=
  (t :: descendants t).filterMap (fun e => if e.tag == "Para" then getAttr e "idsyceron" else none)

/-- Modelled from the spec's words (for the C6 comparison only): a string in
the source's "Weekday-DD-MM-MonthName-YYYY" format — five dash-separated
tokens: a French weekday name, two digits, two digits, a French month name,
four digits. -/
def specWeekdayDateFormat (s : String) : Bool :=
  match (splitOnChar '-' s.toList).map String.mk with
  | [w, dd, mm, mon, yyyy] =>
    ["Lundi", "Mardi", "Mercredi", "Jeudi", "Vendredi", "Samedi", "Dimanche"].contains w
      && dd.toList.length == 2 && dd.toList.all Char.isDigit
      && mm.toList.length == 2 && mm.toList.all Char.isDigit
      && ["Janvier", "Février", "Mars", "Avril", "Mai", "Juin", "Juillet", "Août",
          "Septembre", "Octobre", "Novembre", "Décembre"].contains mon
      && yyyy.toList.length == 4 && yyyy.toList.all Char.isDigit
  | _ => false

/-! ### Concrete elements and trees used by witnesses and counterexamples -/

/-- A leaf `Para` node with an identifier and optional text. -/
def mkPara (pid : String) (txt : Option String) : Elem :=
  .node "Para" [("idsyceron", pid)] txt [] none

/-- A `Para` node without any identifier attribute. -/
def mkParaNoId (txt : Option String) : Elem :=
  .node "Para" [] txt [] none

/-- Witness tree for C1: one section whose `Para` children are two
consecutive fragments of utterance `A` and one utterance `B`. -/
def exSecDup : Elem :=
  .node "Section" [] none
    [mkPara "A" (some "M. Dupont. Bonjour"), mkPara "A" (some "M. Dupont. la suite"),
     mkPara "B" (some "Au revoir")] none

/-- Witness tree for C10: the two fragments of `A` are separated by an
identifier-less `Para` node. -/
def exSecGap : Elem :=
  .node "Section" [] none
    [mkPara "A" (some "x"), mkParaNoId (some "noise"), mkPara "A" (some "y"),
     mkPara "B" (some "z")] none

/-- C2 counterexample tree: an id-bearing `Para` outside any `Section`. -/
def exTreeOrphan : Elem :=
  .node "Doc" [] none [mkPara "Z" (some "x")] none

/-- C3 tree: one section whose only paragraph has no text content at all. -/
def exTreeNoText : Elem :=
  .node "Doc" [] none [.node "Section" [] none [mkPara "E" none] none] none

/-- C4 section: one subsection (`Para B` inside) and one direct `Para A`
outside every subsection. -/
def exSec4 : Elem :=
  .node "Section" [] none
    [.node "SousSection1" [] none [mkPara "B" (some "b")] none,
     mkPara "A" (some "a")] none

/-- C4 tree: a document containing `exSec4`. -/
def exTreeSubsec : Elem :=
  .node "Doc" [] none [exSec4] none

/-- C5: the populated `Pour/Valeur` leaf. -/
def exValeurNode : Elem :=
  .node "Valeur" [] (some "42") [] none

/-- C5: a voting-result subtree in which only the `Pour` value is populated. -/
def exVoteNode : Elem :=
  .node "ResultatVote" [] none [.node "Pour" [] none [exValeurNode] none] none

/-- C5 tree: a section with one paragraph and the voting-result subtree. -/
def exSecVote : Elem :=
  .node "Section" [] none [mkPara "P" (some "texte adopté"), exVoteNode] none

/-- C5/C9 tree: a document containing `exSecVote`. -/
def exTreeVote : Elem :=
  .node "Doc" [] none [exSecVote] none

/-- C7 counterexample tree: a `Metadonnees` block whose publication number
text is not numeric. -/
def exTreeBadMeta : Elem :=
  .node "Doc" [] none
    [.node "Metadonnees" [] none [.node "PublicationNumero" [] (some "abc") [] none] none] none

/-- C7: a `DateSeance` node whose text does not parse as a date. -/
def exDSNode : Elem :=
  .node "DateSeance" [] (some "garbage") [] none

/-- C7: a `Metadonnees` block with a malformed session date and no
publication number node. -/
def exMetaNode : Elem :=
  .node "Metadonnees" [] none [exDSNode] none

/-- C7 witness tree: a document containing `exMetaNode`. -/
def exTreeBadDate : Elem :=
  .node "Doc" [] none [exMetaNode] none

/-! ## Proof layer: characterization of the paragraph assembler

`_extract_paragraphs` is a stateful fold; the lemmas below characterize its
output as one record per maximal run of consecutive equal identifiers among
the identifier-bearing direct `Para` children. -/

/-- The identifier-bearing elements of a child list, with their ids. -/
def idsOf : List Elem → List (String × Elem)
  | [] => []
  | p :: ps =>
    match getAttr p "idsyceron" with
    | none => idsOf ps
    | some i => (i, p) :: idsOf ps

/-- The assembler loop restricted to identifier-bearing nodes. -/
def goIds (base : SectionCtx) (ts : String) : List (String × Elem) → ParaRecord → List ParaRecord
  | [], cur => [cur]
  | ip :: ps, cur =>
    if ip.1 = cur.para_id then goIds base ts ps (appendCont cur ip.2)
    else cur :: goIds base ts ps (newRecord base ts ip.1 ip.2)

/-- The assembler start state restricted to identifier-bearing nodes. -/
def startIds (base : SectionCtx) (ts : String) : List (String × Elem) → List ParaRecord
  | [] => []
  | ip :: ps => goIds base ts ps (newRecord base ts ip.1 ip.2)

/-- Maximal runs of consecutive equal identifiers: the loop state is the
current run (id, first element, continuation elements so far). -/
def runsGo : String × Elem × List Elem → List (String × Elem) → List (String × Elem × List Elem)
  | cur, [] => [cur]
  | cur, ip :: ps =>
    if ip.1 = cur.1 then runsGo (cur.1, cur.2.1, cur.2.2 ++ [ip.2]) ps
    else cur :: runsGo (ip.1, ip.2, []) ps

/-- Group an id-bearing child list into maximal runs of equal consecutive ids. -/
def runs : List (String × Elem) → List (String × Elem × List Elem)
  | [] => []
  | ip :: ps => runsGo (ip.1, ip.2, []) ps

/-- The record the assembler produces for one run: the fresh record of the
first fragment with every continuation fragment appended. -/
def recordOfRun (base : SectionCtx) (ts : String) (run : String × Elem × List Elem) : ParaRecord :=
  run.2.2.foldl appendCont (newRecord base ts run.1 run.2.1)

@[simp] theorem appendCont_para_id (r : ParaRecord) (p : Elem) :
    (appendCont r p).para_id = r.para_id := rfl

@[simp] theorem newRecord_para_id (base : SectionCtx) (ts pid : String) (p : Elem) :
    (newRecord base ts pid p).para_id = pid := rfl

@[simp] theorem foldl_appendCont_para_id (conts : List Elem) (r : ParaRecord) :
    (conts.foldl appendCont r).para_id = r.para_id := by
  induction conts generalizing r with
  | nil => rfl
  | cons c cs ih => simpa using ih (appendCont r c)

@[simp] theorem recordOfRun_para_id (base : SectionCtx) (ts : String)
    (run : String × Elem × List Elem) : (recordOfRun base ts run).para_id = run.1 := by
  simp [recordOfRun]

theorem goRaw_eq_goIds (base : SectionCtx) (ts : String) :
    ∀ (l : List Elem) (cur : ParaRecord), goRaw base ts l cur = goIds base ts (idsOf l) cur := by
  intro l
  induction l with
  | nil => intro cur; rfl
  | cons p ps ih =>
    intro cur
    cases h : getAttr p "idsyceron" with
    | none => simp [goRaw, idsOf, h, ih]
    | some pid => simp [goRaw, idsOf, h, goIds, ih]

theorem startRaw_eq_startIds (base : SectionCtx) (ts : String) :
    ∀ (l : List Elem), startRaw base ts l = startIds base ts (idsOf l) := by
  intro l
  induction l with
  | nil => rfl
  | cons p ps ih =>
    cases h : getAttr p "idsyceron" with
    | none => simp [startRaw, idsOf, h, ih]
    | some pid => simp [startRaw, idsOf, h, startIds, goRaw_eq_goIds]

theorem goIds_eq_runsGo (base : SectionCtx) (ts : String) :
    ∀ (l : List (String × Elem)) (i : String) (p : Elem) (acc : List Elem),
      goIds base ts l (recordOfRun base ts (i, p, acc))
        = (runsGo (i, p, acc) l).map (recordOfRun base ts) := by
  intro l
  induction l with
  | nil => intro i p acc; rfl
  | cons ip ps ih =>
    intro i p acc
    by_cases h : ip.1 = i
    · have hmerge : appendCont (recordOfRun base ts (i, p, acc)) ip.2
          = recordOfRun base ts (i, p, acc ++ [ip.2]) := by
        simp [recordOfRun, List.foldl_append]
      simp only [goIds, runsGo, recordOfRun_para_id, h, if_pos rfl, hmerge]
      exact ih i p (acc ++ [ip.2])
    · have hnew : newRecord base ts ip.1 ip.2 = recordOfRun base ts (ip.1, ip.2, []) := rfl
      simp only [goIds, runsGo, recordOfRun_para_id, if_neg h, hnew]
      rw [ih ip.1 ip.2 []]
      rfl

theorem startIds_eq_runs (base : SectionCtx) (ts : String) (l : List (String × Elem)) :
    startIds base ts l = (runs l).map (recordOfRun base ts) := by
  cases l with
  | nil => rfl
  | cons ip ps =>
    have hnew : newRecord base ts ip.1 ip.2 = recordOfRun base ts (ip.1, ip.2, []) := rfl
    simp only [startIds, runs, hnew]
    exact goIds_eq_runsGo base ts ps ip.1 ip.2 []

/-- The assembler's output is one record per maximal run of consecutive
equal identifiers among the id-bearing direct `Para` children. -/
theorem extract_paragraphs_runs (parent : Elem) (base : SectionCtx) (ts : String) :
    extract_paragraphs parent base ts
      = (runs (idsOf (paraChildren parent))).map (recordOfRun base ts) := by
  rw [extract_paragraphs, startRaw_eq_startIds, startIds_eq_runs]

theorem mem_runsGo_fst {r : String × Elem × List Elem} :
    ∀ (l : List (String × Elem)) (cur : String × Elem × List Elem),
      r ∈ runsGo cur l → r.1 = cur.1 ∨ r.1 ∈ l.map Prod.fst := by
  intro l
  induction l with
  | nil =>
    intro cur hr
    simp only [runsGo, List.mem_singleton] at hr
    exact Or.inl (by rw [hr])
  | cons ip ps ih =>
    intro cur hr
    by_cases h : ip.1 = cur.1
    · simp only [runsGo, if_pos h] at hr
      rcases ih _ hr with h1 | h1
      · exact Or.inl h1
      · exact Or.inr (by simp [h1])
    · simp only [runsGo, if_neg h, List.mem_cons] at hr
      rcases hr with rfl | hr
      · exact Or.inl rfl
      · rcases ih _ hr with h1 | h1
        · exact Or.inr (by simp [h1])
        · exact Or.inr (by simp [h1])

theorem mem_runs_fst {r : String × Elem × List Elem} {l : List (String × Elem)} :
    r ∈ runs l → r.1 ∈ l.map Prod.fst := by
  cases l with
  | nil => intro h; simp [runs] at h
  | cons ip ps =>
    intro h
    rcases mem_runsGo_fst ps _ h with h1 | h1
    · simp [h1]
    · simp [h1]

/-- Every emitted record's `para_id` is the id of some id-bearing direct
`Para` child of the container. -/
theorem para_id_mem (parent : Elem) (base : SectionCtx) (ts : String) (r : ParaRecord)
    (hr : r ∈ extract_paragraphs parent base ts) :
    r.para_id ∈ (idsOf (paraChildren parent)).map Prod.fst := by
  rw [extract_paragraphs_runs] at hr
  rcases List.mem_map.mp hr with ⟨run, hrun, rfl⟩
  rw [recordOfRun_para_id]
  exact mem_runs_fst hrun

/-! ### Run-filter lemmas (for the continuation-merge claim) -/

theorem runsGo_filter_none {pid : String} :
    ∀ (l : List (String × Elem)) (cur : String × Elem × List Elem),
      cur.1 ≠ pid → pid ∉ l.map Prod.fst →
      (runsGo cur l).filter (fun r => r.1 == pid) = [] := by
  intro l
  induction l with
  | nil =>
    intro cur hcur _
    have h2 : (cur.1 == pid) = false := by simpa using hcur
    simp [runsGo, List.filter, h2]
  | cons ip ps ih =>
    intro cur hcur hl
    simp only [List.map_cons, List.mem_cons, not_or] at hl
    by_cases h : ip.1 = cur.1
    · simp only [runsGo, if_pos h]
      exact ih _ hcur hl.2
    · simp only [runsGo, if_neg h, List.filter]
      have h2 : (cur.1 == pid) = false := by simpa using hcur
      rw [h2]
      exact ih _ (fun hh => hl.1 hh.symm) hl.2

theorem runsGo_filter_block {pid : String} {p1 : Elem} :
    ∀ (post : List (String × Elem)) (acc : List Elem), pid ∉ post.map Prod.fst →
      (runsGo (pid, p1, acc) post).filter (fun r => r.1 == pid) = [(pid, p1, acc)] := by
  intro post
  induction post with
  | nil =>
    intro acc _
    simp [runsGo, List.filter]
  | cons ip ps ih =>
    intro acc hl
    simp only [List.map_cons, List.mem_cons, not_or] at hl
    have h : ip.1 ≠ pid := fun hh => hl.1 hh.symm
    simp only [runsGo, if_neg h, List.filter, beq_self_eq_true]
    rw [runsGo_filter_none ps _ h hl.2]

theorem runsGo_filter_pre {pid : String} {p1 p2 : Elem} {post : List (String × Elem)}
    (hpost : pid ∉ post.map Prod.fst) :
    ∀ (pre : List (String × Elem)) (cur : String × Elem × List Elem),
      cur.1 ≠ pid → pid ∉ pre.map Prod.fst →
      (runsGo cur (pre ++ (pid, p1) :: (pid, p2) :: post)).filter (fun r => r.1 == pid)
        = [(pid, p1, [p2])] := by
  intro pre
  induction pre with
  | nil =>
    intro cur hcur _
    have h1 : ¬ ((pid, p1).1 = cur.1) := fun h => hcur h.symm
    have h2 : (cur.1 == pid) = false := by simpa using hcur
    simp only [List.nil_append, runsGo, if_neg h1, if_pos rfl, List.nil_append, List.filter, h2]
    exact runsGo_filter_block post [p2] hpost
  | cons a pre' ih =>
    intro cur hcur hl
    simp only [List.map_cons, List.mem_cons, not_or] at hl
    by_cases h : a.1 = cur.1
    · simp only [List.cons_append, runsGo, if_pos h]
      exact ih _ hcur hl.2
    · simp only [List.cons_append, runsGo, if_neg h, List.filter]
      have h2 : (cur.1 == pid) = false := by simpa using hcur
      rw [h2]
      exact ih _ (fun hh => hl.1 hh.symm) hl.2

theorem runs_filter_block {pid : String} {p1 p2 : Elem} {pre post : List (String × Elem)}
    (hpre : pid ∉ pre.map Prod.fst) (hpost : pid ∉ post.map Prod.fst) :
    (runs (pre ++ (pid, p1) :: (pid, p2) :: post)).filter (fun r => r.1 == pid)
      = [(pid, p1, [p2])] := by
  cases pre with
  | nil =>
    simp only [List.nil_append, runs, runsGo, if_pos rfl, List.nil_append]
    exact runsGo_filter_block post [p2] hpost
  | cons a pre' =>
    simp only [List.map_cons, List.mem_cons, not_or] at hpre
    simp only [List.cons_append, runs]
    exact runsGo_filter_pre hpost _ _ (fun hh => hpre.1 hh.symm) hpre.2

/-! ### Identifier-less paragraphs are invisible to the assembler -/

theorem goRaw_filter_hasId (base : SectionCtx) (ts : String) :
    ∀ (l : List Elem) (cur : ParaRecord),
      goRaw base ts (l.filter hasParaId) cur = goRaw base ts l cur := by
  intro l
  induction l with
  | nil => intro cur; rfl
  | cons p ps ih =>
    intro cur
    cases h : getAttr p "idsyceron" with
    | none =>
      have hb : hasParaId p = false := by simp [hasParaId, h]
      simp [goRaw, List.filter, hb, h, ih]
    | some pid =>
      have hb : hasParaId p = true := by simp [hasParaId, h]
      simp [goRaw, List.filter, hb, h, ih]

theorem startRaw_filter_hasId (base : SectionCtx) (ts : String) :
    ∀ (l : List Elem), startRaw base ts (l.filter hasParaId) = startRaw base ts l := by
  intro l
  induction l with
  | nil => rfl
  | cons p ps ih =>
    cases h : getAttr p "idsyceron" with
    | none =>
      have hb : hasParaId p = false := by simp [hasParaId, h]
      simp [startRaw, List.filter, hb, h, ih]
    | some pid =>
      have hb : hasParaId p = true := by simp [hasParaId, h]
      simp [startRaw, List.filter, hb, h, goRaw_filter_hasId]

theorem paraChildren_removeIdless (e : Elem) :
    paraChildren (removeIdlessParas e) = (paraChildren e).filter hasParaId := by
  cases e with
  | node t a x cs tl =>
    simp only [removeIdlessParas, paraChildren, childrenTagged, Elem.children]
    induction cs with
    | nil => rfl
    | cons c cs ih =>
      by_cases hp : c.tag == "Para"
      · simp [List.filter, hp, ih]
        by_cases hid : hasParaId c <;> simp [hid, List.filter, hp, ih]
      · simp [List.filter, hp, ih]

/-! ### Output identifiers of extract_sections -/

theorem map_para_id_recordOfRun (base : SectionCtx) (ts : String) :
    ∀ (rs : List (String × Elem × List Elem)),
      (rs.map (recordOfRun base ts)).map (fun r => r.para_id) = rs.map (fun run => run.1) := by
  intro rs
  induction rs with
  | nil => rfl
  | cons r rs ih => simp [ih]

theorem extract_paragraphs_ids (parent : Elem) (base : SectionCtx) (ts : String) :
    (extract_paragraphs parent base ts).map (fun r => r.para_id)
      = (runs (idsOf (paraChildren parent))).map (fun run => run.1) := by
  rw [extract_paragraphs_runs, map_para_id_recordOfRun]

theorem flatMap_congr {α β : Type} (l : List α) (f g : α → List β)
    (h : ∀ x ∈ l, f x = g x) : l.flatMap f = l.flatMap g := by
  induction l with
  | nil => rfl
  | cons a l ih =>
    simp only [List.flatMap_cons]
    rw [h a (List.mem_cons_self a l), ih (fun x hx => h x (List.mem_cons_of_mem a hx))]

theorem sectionDocs_ids (md : Metadata) (ts : String) (s : Elem) :
    (sectionDocs md ts s).map (fun r => r.para_id)
      = (if (subsOf s).isEmpty then [s] else subsOf s).flatMap
          (fun c => (runs (idsOf (paraChildren c))).map (fun run => run.1)) := by
  by_cases h : (subsOf s).isEmpty
  · simp only [sectionDocs, if_pos h]
    simp [extract_paragraphs_ids]
  · simp only [sectionDocs, if_neg h, List.map_flatMap]
    exact flatMap_congr _ _ _ (fun ss _ => extract_paragraphs_ids ss _ ts)

/-- The `para_id` values emitted by `extract_sections`: one per maximal run
of consecutive equal ids of the id-bearing `Para` children of each processed
container, independent of the metadata and the timestamp. -/
theorem extract_sections_ids (root : Elem) (md : Metadata) (ts : String) :
    (extract_sections root md ts).map (fun r => r.para_id)
      = (processedContainers root).flatMap
          (fun c => (runs (idsOf (paraChildren c))).map (fun run => run.1)) := by
  simp only [extract_sections, processedContainers, List.map_flatMap, List.flatMap_assoc]
  exact flatMap_congr _ _ _ (fun s _ => sectionDocs_ids md ts s)

/-! ### Text-free paragraphs yield empty record text -/

theorem sublist_all {α : Type} {p : α → Bool} {l l' : List α}
    (hs : List.Sublist l' l) (h : l.all p = true) : l'.all p = true := by
  rw [List.all_eq_true] at h ⊢
  exact fun x hx => h x (hs.subset hx)

theorem joinSp_ws (ps : List (List Char)) (h : ∀ x ∈ ps, x.all Char.isWhitespace = true) :
    (joinSp ps).all Char.isWhitespace = true := by
  induction ps with
  | nil => rfl
  | cons x ps ih =>
    cases ps with
    | nil => simpa [joinSp] using h x (by simp)
    | cons y rest =>
      have h1 : x.all Char.isWhitespace = true := h x (by simp)
      have h2 := ih (fun z hz => h z (List.mem_cons_of_mem x hz))
      have h3 : (' ').isWhitespace = true := by decide
      simp only [joinSp] at h2 ⊢
      simp [List.all_append, List.all_cons, h1, h2, h3]

mutual

theorem textPieces_ws : ∀ (e : Elem), noOwnText e = true →
    ∀ x ∈ textPieces e, x.all Char.isWhitespace = true
  | .node t a txt cs tl => by
    intro h x hx
    simp only [noOwnText, Bool.and_eq_true] at h
    simp only [textPieces, List.mem_append] at hx
    rcases hx with hx | hx
    · rw [List.isEmpty_iff] at h
      simp [h.1] at hx
    · exact tailPieces_ws cs h.2 x hx

theorem tailPieces_ws : ∀ (cs : List Elem), noTextList cs = true →
    ∀ x ∈ tailPieces cs, x.all Char.isWhitespace = true
  | [] => by intro _ x hx; simp [tailPieces] at hx
  | c :: cs => by
    intro h x hx
    simp only [noTextList, Bool.and_eq_true] at h
    simp only [tailPieces, List.mem_cons, List.mem_append] at hx
    rcases hx with rfl | hx | hx
    · exact joinSp_ws _ (textPieces_ws c h.1.1)
    · rw [List.isEmpty_iff] at h
      simp [h.1.2] at hx
    · exact tailPieces_ws cs h.2 x hx

end

theorem extract_text_ws (e : Elem) (h : noOwnText e = true) :
    (extract_text_recursive e).toList.all Char.isWhitespace = true := by
  show (joinSp (textPieces e)).all Char.isWhitespace = true
  exact joinSp_ws _ (textPieces_ws e h)

theorem stripChars_ws (cs : List Char) (h : cs.all Char.isWhitespace = true) :
    stripChars cs = [] := by
  unfold stripChars
  have h1 : cs.dropWhile Char.isWhitespace = [] := by
    rw [List.dropWhile_eq_nil_iff]
    rw [List.all_eq_true] at h
    exact fun x hx => h x hx
  simp [h1]

theorem dropOptPeriod_all {p : Char → Bool} (l : List Char) (h : l.all p = true) :
    (dropOptPeriod l).all p = true := by
  unfold dropOptPeriod
  split
  · simp only [List.all_cons, Bool.and_eq_true] at h
    exact h.2
  · exact h

theorem stripNameList_ws (nom text : List Char) (h : text.all Char.isWhitespace = true) :
    (stripNameList nom text).all Char.isWhitespace = true := by
  unfold stripNameList
  split
  · exact sublist_all (List.dropWhile_sublist _)
      (dropOptPeriod_all _ (sublist_all (List.drop_sublist _ _) h))
  · exact h

theorem titleSplit_ws (text : List Char) (h : text.all Char.isWhitespace = true) :
    titleSplit text = none := by
  unfold titleSplit
  split
  · simp at h
  · simp at h
  · simp at h
  · rfl

theorem stripGenericList_ws (text : List Char) (h : text.all Char.isWhitespace = true) :
    (stripGenericList text).all Char.isWhitespace = true := by
  unfold stripGenericList
  rw [titleSplit_ws text h]
  exact h

theorem remove_speaker_echo_ws (s : String) (nom : Option String)
    (h : s.toList.all Char.isWhitespace = true) : remove_speaker_echo s nom = "" := by
  have key : ∀ t1 : List Char, t1.all Char.isWhitespace = true →
      String.mk (stripChars (stripGenericList t1)) = "" := by
    intro t1 ht1
    rw [stripChars_ws _ (stripGenericList_ws t1 ht1)]
  unfold remove_speaker_echo
  split
  · rfl
  · cases nom with
    | none => exact key _ h
    | some n =>
      simp only [echoInput]
      by_cases hn : n.toList.isEmpty = true
      · rw [if_pos hn]
        exact key _ h
      · rw [if_neg hn]
        exact key _ (stripNameList_ws n.toList s.toList h)

theorem newRecord_texte_noText (base : SectionCtx) (ts pid : String) (p : Elem)
    (h : noOwnText p = true) : (newRecord base ts pid p).texte = "" := by
  show remove_speaker_echo (extract_text_recursive p) (extract_orateur p).nom = ""
  exact remove_speaker_echo_ws _ _ (extract_text_ws p h)

/-! ### The pipeline in transform.py never sets vote fields -/

theorem foldl_appendCont_vote (conts : List Elem) (r : ParaRecord) :
    (conts.foldl appendCont r).vote_present = r.vote_present
      ∧ (conts.foldl appendCont r).nombre_votants = r.nombre_votants
      ∧ (conts.foldl appendCont r).nombre_suffrages_exprimes = r.nombre_suffrages_exprimes
      ∧ (conts.foldl appendCont r).votes_pour = r.votes_pour
      ∧ (conts.foldl appendCont r).votes_contre = r.votes_contre := by
  induction conts generalizing r with
  | nil => simp
  | cons c cs ih => simpa using ih (appendCont r c)

theorem recordOfRun_no_vote (base : SectionCtx) (ts : String) (run : String × Elem × List Elem) :
    (recordOfRun base ts run).vote_present = false
      ∧ (recordOfRun base ts run).nombre_votants = none
      ∧ (recordOfRun base ts run).nombre_suffrages_exprimes = none
      ∧ (recordOfRun base ts run).votes_pour = none
      ∧ (recordOfRun base ts run).votes_contre = none := by
  unfold recordOfRun
  rcases foldl_appendCont_vote run.2.2 (newRecord base ts run.1 run.2.1) with ⟨h1, h2, h3, h4, h5⟩
  exact ⟨h1, h2, h3, h4, h5⟩

theorem extract_sections_no_vote (root : Elem) (md : Metadata) (ts : String) (r : ParaRecord)
    (hr : r ∈ extract_sections root md ts) :
    r.vote_present = false ∧ r.nombre_votants = none ∧ r.nombre_suffrages_exprimes = none
      ∧ r.votes_pour = none ∧ r.votes_contre = none := by
  unfold extract_sections at hr
  rcases List.mem_flatMap.mp hr with ⟨s, _, hs⟩
  have hpara : ∀ (parent : Elem) (base : SectionCtx),
      r ∈ extract_paragraphs parent base ts →
      r.vote_present = false ∧ r.nombre_votants = none ∧ r.nombre_suffrages_exprimes = none
        ∧ r.votes_pour = none ∧ r.votes_contre = none := by
    intro parent base hmem
    rw [extract_paragraphs_runs] at hmem
    rcases List.mem_map.mp hmem with ⟨run, _, rfl⟩
    exact recordOfRun_no_vote base ts run
  unfold sectionDocs at hs
  by_cases hsub : (subsOf s).isEmpty
  · rw [if_pos hsub] at hs
    exact hpara _ _ hs
  · rw [if_neg hsub] at hs
    rcases List.mem_flatMap.mp hs with ⟨ss, _, hss⟩
    exact hpara _ _ hss

/-! ### Metadata extraction: per-step behavior -/

theorem exceptMap_ok {α β : Type} (f : α → β) (x : Except Unit α) (b : β)
    (h : x.map f = .ok b) : ∃ a, x = .ok a ∧ b = f a := by
  cases x with
  | error u => simp [Except.map] at h
  | ok a => exact ⟨a, rfl, by simpa [Except.map] using h.symm⟩

theorem exceptBind_ok {α β : Type} (x : Except Unit α) (f : α → Except Unit β) (b : β)
    (h : x.bind f = .ok b) : ∃ a, x = .ok a ∧ f a = .ok b := by
  cases x with
  | error u => simp [Except.bind] at h
  | ok a => exact ⟨a, rfl, by simpa [Except.bind] using h⟩

theorem stepPublication_pres (meta : Elem) (md md' : Metadata)
    (h : stepPublication meta md = .ok md') :
    md'.date_seance = md.date_seance ∧ md'.annee = md.annee ∧ md'.mois = md.mois := by
  unfold stepPublication at h
  split at h
  · cases h; exact ⟨rfl, rfl, rfl⟩
  · rcases exceptMap_ok _ _ _ h with ⟨n, _, rfl⟩
    exact ⟨rfl, rfl, rfl⟩

theorem stepPublication_none (meta : Elem) (md md' : Metadata)
    (hfind : findChild meta "PublicationNumero" = none)
    (h : stepPublication meta md = .ok md') : md' = md := by
  unfold stepPublication at h
  rw [hfind] at h
  cases h
  rfl

theorem stepDateParution_pres (meta : Elem) (md md' : Metadata)
    (h : stepDateParution meta md = .ok md') :
    md'.date_seance = md.date_seance ∧ md'.annee = md.annee ∧ md'.mois = md.mois
      ∧ md'.publication_numero = md.publication_numero := by
  unfold stepDateParution at h
  split at h
  · cases h; exact ⟨rfl, rfl, rfl, rfl⟩
  · cases h; exact ⟨rfl, rfl, rfl, rfl⟩

theorem stepDateSeance_pres_pub (meta : Elem) (md md' : Metadata)
    (h : stepDateSeance meta md = .ok md') :
    md'.publication_numero = md.publication_numero := by
  unfold stepDateSeance at h
  split at h
  · cases h; rfl
  · split at h
    · cases h; rfl
    · rcases exceptBind_ok _ _ _ h with ⟨a, _, h2⟩
      rcases exceptMap_ok _ _ _ h2 with ⟨m, _, rfl⟩
      rfl

theorem stepDateSeance_parse_none (meta : Elem) (md md' : Metadata) (e : Elem)
    (hfind : findChild meta "DateSeance" = some e) (hp : parse_date_opt e.text = none)
    (h : stepDateSeance meta md = .ok md') :
    md' = { md with date_seance := some none } := by
  unfold stepDateSeance at h
  split at h
  · next hf => rw [hfind] at hf; cases hf
  · next e' hf =>
    rw [hfind] at hf
    injection hf with hf
    subst hf
    split at h
    · next hp' => cases h; rw [hp]
    · next ds hp' => rw [hp] at hp'; cases hp'

theorem stepDateSeance_annee_some (meta : Elem) (md md' : Metadata)
    (h : stepDateSeance meta md = .ok md') (h0 : md.annee = none) (hs : md'.annee.isSome) :
    ∃ e, findChild meta "DateSeance" = some e ∧ (parse_date_opt e.text).isSome := by
  unfold stepDateSeance at h
  split at h
  · cases h; rw [h0] at hs; simp at hs
  · next e hfind =>
    split at h
    · next hp => cases h; rw [h0] at hs; simp at hs
    · next ds hp => exact ⟨e, hfind, by simp [hp]⟩

theorem stepSessionNom_pres (meta : Elem) (md md' : Metadata)
    (h : stepSessionNom meta md = .ok md') :
    md'.date_seance = md.date_seance ∧ md'.annee = md.annee ∧ md'.mois = md.mois
      ∧ md'.publication_numero = md.publication_numero := by
  unfold stepSessionNom at h
  split at h
  · cases h; exact ⟨rfl, rfl, rfl, rfl⟩
  · cases h; exact ⟨rfl, rfl, rfl, rfl⟩

theorem stepSessionParl_pres (meta : Elem) (md md' : Metadata)
    (h : stepSessionParl meta md = .ok md') :
    md'.date_seance = md.date_seance ∧ md'.annee = md.annee ∧ md'.mois = md.mois
      ∧ md'.publication_numero = md.publication_numero := by
  unfold stepSessionParl at h
  split at h
  · cases h; exact ⟨rfl, rfl, rfl, rfl⟩
  · cases h; exact ⟨rfl, rfl, rfl, rfl⟩

theorem stepLegislature_pres (meta : Elem) (md md' : Metadata)
    (h : stepLegislature meta md = .ok md') :
    md'.date_seance = md.date_seance ∧ md'.annee = md.annee ∧ md'.mois = md.mois
      ∧ md'.publication_numero = md.publication_numero := by
  unfold stepLegislature at h
  split at h
  · cases h; exact ⟨rfl, rfl, rfl, rfl⟩
  · rcases exceptMap_ok _ _ _ h with ⟨n, _, rfl⟩
    exact ⟨rfl, rfl, rfl, rfl⟩

theorem stepPremierePage_pres (meta : Elem) (md md' : Metadata)
    (h : stepPremierePage meta md = .ok md') :
    md'.date_seance = md.date_seance ∧ md'.annee = md.annee ∧ md'.mois = md.mois
      ∧ md'.publication_numero = md.publication_numero := by
  unfold stepPremierePage at h
  split at h
  · cases h; exact ⟨rfl, rfl, rfl, rfl⟩
  · rcases exceptMap_ok _ _ _ h with ⟨n, _, rfl⟩
    exact ⟨rfl, rfl, rfl, rfl⟩

/-- Decomposition of a successful `extract_metadata` run over a present
`Metadonnees` node into the seven intermediate dicts. -/
theorem extract_metadata_decomp (root : Elem) (meta : Elem) (md' : Metadata)
    (hfind : findDesc root "Metadonnees" = some meta)
    (h : extract_metadata root = .ok md') :
    ∃ m1 m2 m3 m4 m5 m6,
      stepPublication meta {} = .ok m1 ∧ stepDateParution meta m1 = .ok m2
        ∧ stepDateSeance meta m2 = .ok m3 ∧ stepSessionNom meta m3 = .ok m4
        ∧ stepSessionParl meta m4 = .ok m5 ∧ stepLegislature meta m5 = .ok m6
        ∧ stepPremierePage meta m6 = .ok md' := by
  unfold extract_metadata at h
  rw [hfind] at h
  rcases exceptBind_ok _ _ _ h with ⟨m6, h6, h7⟩
  rcases exceptBind_ok _ _ _ h6 with ⟨m5, h5, h6'⟩
  rcases exceptBind_ok _ _ _ h5 with ⟨m4, h4, h5'⟩
  rcases exceptBind_ok _ _ _ h4 with ⟨m3, h3, h4'⟩
  rcases exceptBind_ok _ _ _ h3 with ⟨m2, h2, h3'⟩
  rcases exceptBind_ok _ _ _ h2 with ⟨m1, h1, h2'⟩
  exact ⟨m1, m2, m3, m4, m5, m6, h1, h2', h3', h4', h5', h6', h7⟩

/-! ### Bulk create-mode classification -/

theorem containsStr_vce_vce : containsStr vceMsg vceMsg = true := by decide

theorem containsStr_malformed_vce : containsStr malformedMsg vceMsg = false := by decide

theorem createOutcome_cases (mal : ParaRecord → Bool) (keys : List String) (d : ParaRecord) :
    createOutcome mal keys d = none ∨ createOutcome mal keys d = some vceMsg
      ∨ createOutcome mal keys d = some malformedMsg := by
  unfold createOutcome
  split
  · exact Or.inr (Or.inl rfl)
  · split
    · exact Or.inr (Or.inr rfl)
    · exact Or.inl rfl

theorem bulkCreate_spec (mal : ParaRecord → Bool) :
    ∀ (docs : List ParaRecord) (keys : List String),
      ((createOutcomes mal keys docs).filter (fun o => o.isNone)).length
          = (createOutcomes mal keys docs).count none
        ∧ ((createOutcomes mal keys docs).filterMap id).length
            = (createOutcomes mal keys docs).count (some vceMsg)
              + (createOutcomes mal keys docs).count (some malformedMsg)
        ∧ (((createOutcomes mal keys docs).filterMap id).filter
              (fun e => !(containsStr e vceMsg))).length
            = (createOutcomes mal keys docs).count (some malformedMsg)
        ∧ (createOutcomes mal keys docs).count none
            + (createOutcomes mal keys docs).count (some vceMsg)
            + (createOutcomes mal keys docs).count (some malformedMsg)
            = docs.length := by
  intro docs
  induction docs with
  | nil =>
    intro keys
    simp [createOutcomes]
  | cons d ds ih =>
    intro keys
    have b1 : ((none : Option String) == none) = true := rfl
    have b2 : ((none : Option String) == some vceMsg) = false := rfl
    have b3 : ((none : Option String) == some malformedMsg) = false := rfl
    have b4 : ((some vceMsg : Option String) == none) = false := rfl
    have b5 : ((some malformedMsg : Option String) == none) = false := rfl
    have b6 : ((some vceMsg : Option String) == some vceMsg) = true := by decide
    have b7 : ((some malformedMsg : Option String) == some malformedMsg) = true := by decide
    have b8 : ((some vceMsg : Option String) == some malformedMsg) = false := by decide
    have b9 : ((some malformedMsg : Option String) == some vceMsg) = false := by decide
    have hne1 : ¬ (vceMsg = malformedMsg) := by decide
    have hne2 : ¬ (malformedMsg = vceMsg) := by decide
    have ih' := ih (createKeysAfter keys d (createOutcome mal keys d))
    rcases createOutcome_cases mal keys d with hc | hc | hc
    · rw [hc] at ih'
      rcases ih' with ⟨ih1, ih2, ih3, ih4⟩
      simp [createOutcomes, hc, List.count_cons, List.filter_cons, List.filterMap_cons,
        b1, b2, b3, ih1, ih2, ih3]
      omega
    · rw [hc] at ih'
      rcases ih' with ⟨ih1, ih2, ih3, ih4⟩
      simp [createOutcomes, hc, List.count_cons, List.filter_cons, List.filterMap_cons,
        b4, b6, b9, containsStr_vce_vce, hne1, hne2, ih1, ih2, ih3]
      omega
    · rw [hc] at ih'
      rcases ih' with ⟨ih1, ih2, ih3, ih4⟩
      simp [createOutcomes, hc, List.count_cons, List.filter_cons, List.filterMap_cons,
        b5, b7, b8, containsStr_malformed_vce, hne1, hne2, ih1, ih2, ih3]
      omega

/-! ### Replace-mode store lemmas -/

theorem storeKeys_map_overwrite (st : Store) (k : String) (v : ParaRecord) :
    storeKeys (st.map (fun kv => if kv.1 = k then (k, v) else kv)) = storeKeys st := by
  induction st with
  | nil => rfl
  | cons kv t ih =>
    by_cases h : kv.1 = k
    · simp [storeKeys, h] at ih ⊢
      exact ih
    · simp [storeKeys, h] at ih ⊢
      exact ih

theorem storeKeys_upsert (st : Store) (k : String) (v : ParaRecord) :
    storeKeys (upsert st k v)
      = if k ∈ storeKeys st then storeKeys st else storeKeys st ++ [k] := by
  unfold upsert
  by_cases h : k ∈ storeKeys st
  · rw [if_pos h, if_pos h, storeKeys_map_overwrite]
  · rw [if_neg h, if_neg h]
    simp [storeKeys]

theorem lookup_eq_none_of_not_mem (st : Store) (k : String) (h : k ∉ storeKeys st) :
    lookupStore st k = none := by
  induction st with
  | nil => rfl
  | cons kv t ih =>
    simp only [storeKeys, List.map_cons, List.mem_cons, not_or] at h
    unfold lookupStore
    rw [if_neg (fun hh => h.1 hh.symm)]
    exact ih (by simpa [storeKeys] using h.2)

theorem lookup_upsert_self (st : Store) (k : String) (v : ParaRecord) :
    lookupStore (upsert st k v) k = some v := by
  unfold upsert
  by_cases hmem : k ∈ storeKeys st
  · rw [if_pos hmem]
    induction st with
    | nil => simp [storeKeys] at hmem
    | cons kv t ih =>
      by_cases h : kv.1 = k
      · simp only [List.map_cons, if_pos h, lookupStore]
        simp
      · simp only [List.map_cons, if_neg h, lookupStore]
        have hmem' : k ∈ storeKeys t := by
          simp only [storeKeys, List.map_cons, List.mem_cons] at hmem
          rcases hmem with hk | hk
          · exact absurd hk.symm h
          · simpa [storeKeys] using hk
        exact ih hmem'
  · rw [if_neg hmem]
    induction st with
    | nil => simp [lookupStore]
    | cons kv t ih =>
      simp only [storeKeys, List.map_cons, List.mem_cons, not_or] at hmem
      simp only [List.cons_append, lookupStore]
      rw [if_neg (fun hh => hmem.1 hh.symm)]
      exact ih (by simpa [storeKeys] using hmem.2)

theorem lookup_map_overwrite_other (t : Store) (k : String) (v : ParaRecord) (k' : String)
    (h : k' ≠ k) :
    lookupStore (t.map (fun kv => if kv.1 = k then (k, v) else kv)) k' = lookupStore t k' := by
  induction t with
  | nil => rfl
  | cons kv t ih =>
    by_cases hk : kv.1 = k
    · simp only [List.map_cons, if_pos hk, lookupStore]
      rw [if_neg (fun hh => h hh.symm), if_neg (fun hh => h (by rw [← hh, hk]))]
      exact ih
    · simp only [List.map_cons, if_neg hk, lookupStore]
      by_cases h2 : kv.1 = k'
      · rw [if_pos h2, if_pos h2]
      · rw [if_neg h2, if_neg h2]
        exact ih

theorem lookup_append_single_other (st : Store) (k : String) (v : ParaRecord) (k' : String)
    (h : k' ≠ k) : lookupStore (st ++ [(k, v)]) k' = lookupStore st k' := by
  induction st with
  | nil =>
    simp only [List.nil_append, lookupStore]
    rw [if_neg (fun hh => h hh.symm)]
  | cons kv t ih =>
    simp only [List.cons_append, lookupStore]
    by_cases h2 : kv.1 = k'
    · rw [if_pos h2, if_pos h2]
    · rw [if_neg h2, if_neg h2]
      exact ih

theorem lookup_upsert_other (st : Store) (k : String) (v : ParaRecord) (k' : String)
    (h : k' ≠ k) : lookupStore (upsert st k v) k' = lookupStore st k' := by
  unfold upsert
  by_cases hmem : k ∈ storeKeys st
  · rw [if_pos hmem]
    exact lookup_map_overwrite_other st k v k' h
  · rw [if_neg hmem]
    exact lookup_append_single_other st k v k' h

theorem nodup_storeKeys_upsert (st : Store) (k : String) (v : ParaRecord)
    (h : (storeKeys st).Nodup) : (storeKeys (upsert st k v)).Nodup := by
  rw [storeKeys_upsert]
  by_cases hmem : k ∈ storeKeys st
  · rw [if_pos hmem]; exact h
  · rw [if_neg hmem]
    simp [List.nodup_append, h, hmem]

theorem mem_storeKeys_upsert_self (st : Store) (k : String) (v : ParaRecord) :
    k ∈ storeKeys (upsert st k v) := by
  rw [storeKeys_upsert]
  by_cases h : k ∈ storeKeys st
  · rw [if_pos h]; exact h
  · rw [if_neg h]; simp

theorem bulkReplace_cons_ne (st : Store) (ctr : Nat) (d : ParaRecord) (ds : List ParaRecord)
    (hd : d.para_id ≠ "") :
    bulkReplace (st, ctr) (d :: ds) = bulkReplace (upsert st d.para_id d, ctr) ds := by
  simp only [bulkReplace, docKey, if_neg hd]

theorem storeKeys_bulkReplace_keydep :
    ∀ (docs1 docs2 : List ParaRecord) (st st' : Store) (c c' : Nat),
      storeKeys st = storeKeys st' →
      docs1.map (fun d => d.para_id) = docs2.map (fun d => d.para_id) →
      (∀ d ∈ docs1, d.para_id ≠ "") →
      storeKeys (bulkReplace (st, c) docs1).1 = storeKeys (bulkReplace (st', c') docs2).1 := by
  intro docs1
  induction docs1 with
  | nil =>
    intro docs2 st st' c c' hkeys hmap _
    cases docs2 with
    | nil => simpa [bulkReplace] using hkeys
    | cons d2 ds2 => simp at hmap
  | cons d1 ds1 ih =>
    intro docs2 st st' c c' hkeys hmap hne
    cases docs2 with
    | nil => simp at hmap
    | cons d2 ds2 =>
      simp only [List.map_cons, List.cons.injEq] at hmap
      have hd1 : d1.para_id ≠ "" := hne d1 (by simp)
      have hd2 : d2.para_id ≠ "" := by rw [← hmap.1]; exact hd1
      rw [bulkReplace_cons_ne _ _ _ _ hd1, bulkReplace_cons_ne _ _ _ _ hd2]
      apply ih ds2 _ _ _ _ ?_ hmap.2 (fun d hd => hne d (List.mem_cons_of_mem _ hd))
      rw [storeKeys_upsert, storeKeys_upsert, hkeys, hmap.1]

theorem lookup_bulkReplace_not_mem :
    ∀ (docs : List ParaRecord) (st : Store) (c : Nat) (k : String),
      (∀ d ∈ docs, d.para_id ≠ "") → k ∉ docs.map (fun d => d.para_id) →
      lookupStore (bulkReplace (st, c) docs).1 k = lookupStore st k := by
  intro docs
  induction docs with
  | nil => intro st c k _ _; rfl
  | cons d ds ih =>
    intro st c k hne hk
    simp only [List.map_cons, List.mem_cons, not_or] at hk
    rw [bulkReplace_cons_ne _ _ _ _ (hne d (by simp))]
    rw [ih _ _ _ (fun d' hd' => hne d' (List.mem_cons_of_mem _ hd')) hk.2]
    exact lookup_upsert_other st d.para_id d k hk.1

theorem mem_keys_bulkReplace_mono :
    ∀ (docs : List ParaRecord) (st : Store) (c : Nat) (k : String),
      k ∈ storeKeys st → k ∈ storeKeys (bulkReplace (st, c) docs).1 := by
  intro docs
  induction docs with
  | nil => intro st c k h; exact h
  | cons d ds ih =>
    intro st c k h
    simp only [bulkReplace]
    apply ih
    rw [storeKeys_upsert]
    by_cases hm : (docKey d c).1 ∈ storeKeys st
    · rw [if_pos hm]; exact h
    · rw [if_neg hm]; exact List.mem_append_left _ h

theorem mem_keys_bulkReplace_of_doc :
    ∀ (docs : List ParaRecord) (st : Store) (c : Nat) (d : ParaRecord),
      (∀ d' ∈ docs, d'.para_id ≠ "") → d ∈ docs →
      d.para_id ∈ storeKeys (bulkReplace (st, c) docs).1 := by
  intro docs
  induction docs with
  | nil => intro st c d _ hd; simp at hd
  | cons d0 ds ih =>
    intro st c d hne hd
    rcases List.mem_cons.mp hd with rfl | hd
    · rw [bulkReplace_cons_ne _ _ _ _ (hne d (by simp))]
      exact mem_keys_bulkReplace_mono ds _ _ _ (mem_storeKeys_upsert_self st d.para_id d)
    · rw [bulkReplace_cons_ne _ _ _ _ (hne d0 (by simp))]
      exact ih _ _ _ (fun d' hd' => hne d' (List.mem_cons_of_mem _ hd')) hd

theorem nodup_keys_bulkReplace :
    ∀ (docs : List ParaRecord) (st : Store) (c : Nat),
      (storeKeys st).Nodup → (storeKeys (bulkReplace (st, c) docs).1).Nodup := by
  intro docs
  induction docs with
  | nil => intro st c h; exact h
  | cons d ds ih =>
    intro st c h
    simp only [bulkReplace]
    exact ih _ _ (nodup_storeKeys_upsert _ _ _ h)

theorem store_ext : ∀ (st st' : Store), (storeKeys st).Nodup → storeKeys st' = storeKeys st →
    (∀ k, lookupStore st' k = lookupStore st k) → st' = st := by
  intro st
  induction st with
  | nil =>
    intro st' _ hk _
    cases st' with
    | nil => rfl
    | cons kv' t' => simp [storeKeys] at hk
  | cons kv t ih =>
    intro st' hnd hk hl
    cases st' with
    | nil => simp [storeKeys] at hk
    | cons kv' t' =>
      simp only [storeKeys, List.map_cons, List.cons.injEq] at hk
      simp only [storeKeys, List.map_cons, List.nodup_cons] at hnd
      have hv : kv'.2 = kv.2 := by
        have hl1 := hl kv.1
        unfold lookupStore at hl1
        rw [if_pos hk.1, if_pos rfl] at hl1
        exact Option.some.inj hl1
      have ht : t' = t := by
        apply ih t' hnd.2 hk.2
        intro k
        by_cases hkk : k = kv.1
        · subst hkk
          rw [lookup_eq_none_of_not_mem t kv.1 hnd.1,
            lookup_eq_none_of_not_mem t' kv.1 (by simp only [storeKeys]; rw [hk.2]; exact hnd.1)]
        · have hl1 := hl k
          unfold lookupStore at hl1
          rw [if_neg (fun hh => hkk (by rw [← hh, hk.1])), if_neg (fun hh => hkk hh.symm)] at hl1
          exact hl1
      have hfst : kv' = kv := Prod.ext hk.1 hv
      rw [hfst, ht]

/-- Re-running a replace-mode bulk write absorbs a previous run with the
same key sequence: the earlier values are all overwritten in place. -/
theorem bulkReplace_absorb :
    ∀ (docs : List ParaRecord) (st st' : Store) (c c' : Nat),
      (∀ d ∈ docs, d.para_id ≠ "") →
      (storeKeys st).Nodup → (storeKeys st').Nodup →
      storeKeys st' = storeKeys (bulkReplace (st, c) docs).1 →
      (∀ k, k ∉ docs.map (fun d => d.para_id) → lookupStore st' k = lookupStore st k) →
      (bulkReplace (st', c') docs).1 = (bulkReplace (st, c) docs).1 := by
  intro docs
  induction docs with
  | nil =>
    intro st st' c c' _ hnd hnd' hkeys hlook
    exact store_ext st st' hnd (by simpa [bulkReplace] using hkeys) (fun k => hlook k (by simp))
  | cons d ds ih =>
    intro st st' c c' hne hnd hnd' hkeys hlook
    have hd : d.para_id ≠ "" := hne d (by simp)
    have hne' : ∀ d' ∈ ds, d'.para_id ≠ "" := fun d' hd' => hne d' (List.mem_cons_of_mem _ hd')
    rw [bulkReplace_cons_ne _ _ _ _ hd] at hkeys
    rw [bulkReplace_cons_ne _ _ _ _ hd, bulkReplace_cons_ne _ _ _ _ hd]
    apply ih _ _ _ _ hne' (nodup_storeKeys_upsert _ _ _ hnd) (nodup_storeKeys_upsert _ _ _ hnd')
      ?_ ?_
    · have hmem : d.para_id ∈ storeKeys st' := by
        rw [hkeys]
        exact mem_keys_bulkReplace_mono ds _ _ _ (mem_storeKeys_upsert_self st d.para_id d)
      rw [storeKeys_upsert, if_pos hmem]
      exact hkeys
    · intro k hk
      by_cases hkd : k = d.para_id
      · subst hkd
        rw [lookup_upsert_self, lookup_upsert_self]
      · rw [lookup_upsert_other _ _ _ _ hkd, lookup_upsert_other _ _ _ _ hkd]
        exact hlook k (by simp only [List.map_cons, List.mem_cons, not_or]; exact ⟨hkd, hk⟩)

/-- The emitted `para_id` sequence of one pipeline run does not depend on
the run's wall-clock timestamp. -/
theorem pipelineDocs_ids (tree : Elem) (ts ts' : String) :
    (pipelineDocs tree ts).map (fun r => r.para_id)
      = (pipelineDocs tree ts').map (fun r => r.para_id) := by
  unfold pipelineDocs
  cases extract_metadata tree with
  | error u => rfl
  | ok md => rw [extract_sections_ids, extract_sections_ids]

/-! ## Claim theorems -/

/-- C1: for a container whose identifier-bearing direct `Para` children
carry a given identifier on exactly two consecutive nodes, the assembler
emits exactly one record for that identifier, and its text is the first
fragment's recursively extracted, echo-stripped text, a single space, and
the second fragment's recursively extracted text stripped with the same
established speaker name. -/
theorem claim_C1_continuation_merge (parent : Elem) (base : SectionCtx) (ts pid : String)
    (pre post : List (String × Elem)) (p1 p2 : Elem)
    (hids : idsOf (paraChildren parent) = pre ++ (pid, p1) :: (pid, p2) :: post)
    (hpre : pid ∉ pre.map Prod.fst) (hpost : pid ∉ post.map Prod.fst) :
    (extract_paragraphs parent base ts).filter (fun r => r.para_id == pid)
        = [appendCont (newRecord base ts pid p1) p2]
      ∧ (appendCont (newRecord base ts pid p1) p2).texte
          = remove_speaker_echo (extract_text_recursive p1) (extract_orateur p1).nom
            ++ " " ++ remove_speaker_echo (extract_text_recursive p2) (extract_orateur p1).nom := by
  constructor
  · rw [extract_paragraphs_runs, hids, List.filter_map]
    have hfeq : ∀ run ∈ runs (pre ++ (pid, p1) :: (pid, p2) :: post),
        ((fun r => r.para_id == pid) ∘ recordOfRun base ts) run = (run.1 == pid) := by
      intro run _
      simp [Function.comp, recordOfRun_para_id]
    rw [List.filter_congr hfeq, runs_filter_block hpre hpost]
    rfl
  · rfl

/-- C1 witness: the merge theorem applied to a concrete synthetic section. -/
theorem claim_C1_witness :
    (extract_paragraphs exSecDup {} "ts").filter (fun r => r.para_id == "A")
        = [appendCont (newRecord {} "ts" "A" (mkPara "A" (some "M. Dupont. Bonjour")))
             (mkPara "A" (some "M. Dupont. la suite"))]
      ∧ (extract_paragraphs exSecDup {} "ts").map (fun r => (r.para_id, r.texte))
          = [("A", "Bonjour la suite"), ("B", "Au revoir")] :=
  ⟨(claim_C1_continuation_merge exSecDup {} "ts" "A" []
      [("B", mkPara "B" (some "Au revoir"))]
      (mkPara "A" (some "M. Dupont. Bonjour")) (mkPara "A" (some "M. Dupont. la suite"))
      rfl (by simp) (by simp)).1,
   rfl⟩

/-- C10: identifier-less `Para` children are skipped without emitting a
record and without resetting the continuation state: the assembler's output
on a container equals its output on the container with all identifier-less
paragraphs removed, so nodes before and after such a gap merge exactly as if
adjacent; concretely, two same-id fragments separated by an id-less node
still merge into one record. -/
theorem claim_C10_idless_invisible :
    (∀ (parent : Elem) (base : SectionCtx) (ts : String),
        extract_paragraphs parent base ts = extract_paragraphs (removeIdlessParas parent) base ts)
      ∧ (extract_paragraphs exSecGap {} "ts").map (fun r => (r.para_id, r.texte))
          = [("A", "x y"), ("B", "z")] := by
  constructor
  · intro parent base ts
    unfold extract_paragraphs
    rw [paraChildren_removeIdless, startRaw_filter_hasId]
  · rfl

/-- C2 counterexample: the identifier `Z` appears on an id-bearing `Para`
node of the raw tree (directly under the document root, outside any
`Section`), yet it appears zero times, not exactly once, among the output
`para_id` values of `extract_sections`. -/
theorem claim_C2_counterexample :
    paraIdsInTree exTreeOrphan = ["Z"]
      ∧ ((extract_sections exTreeOrphan {} "ts").map (fun r => r.para_id)).count "Z" = 0 :=
  ⟨rfl, rfl⟩

/-- C2 amended: the output `para_id` values of `extract_sections` are
exactly one occurrence per maximal run of consecutive equal identifiers
among the id-bearing direct `Para` children of each processed container (a
section without subsections, or each of its subsections); identifiers on
paragraph nodes outside the processed containers never appear, and an
identifier whose occurrences form several runs or lie in several containers
appears once per run. -/
theorem claim_C2_round_trip (root : Elem) (md : Metadata) (ts : String) :
    (extract_sections root md ts).map (fun r => r.para_id)
      = (processedContainers root).flatMap
          (fun c => (runs (idsOf (paraChildren c))).map (fun run => run.1)) :=
  extract_sections_ids root md ts

/-- C3 counterexample: the tree whose only paragraph has no text anywhere
yields a final `extract_sections` output containing a record whose text is
empty after trimming — the caller does not drop it. -/
theorem claim_C3_counterexample :
    (extract_sections exTreeNoText {} "ts").map (fun r => r.texte) = [""]
      ∧ ((extract_sections exTreeNoText {} "ts").any (fun r => pyStrip r.texte == "")) = true :=
  ⟨rfl, rfl⟩

/-- C3 amended: a paragraph node with no text content anywhere in its
subtree yields an empty-text record inside the assembler, but that record
is NOT excluded from the final output list: `extract_sections` performs no
empty-text filtering, as the concrete tree shows. -/
theorem claim_C3_empty_text (parent : Elem) (base : SectionCtx) (ts pid : String) (p : Elem)
    (hpc : paraChildren parent = [p]) (hid : getAttr p "idsyceron" = some pid)
    (hnt : noOwnText p = true) :
    extract_paragraphs parent base ts = [newRecord base ts pid p]
      ∧ (newRecord base ts pid p).texte = ""
      ∧ (extract_sections exTreeNoText {} "ts").map (fun r => r.texte) = [""] := by
  refine ⟨?_, newRecord_texte_noText base ts pid p hnt, rfl⟩
  unfold extract_paragraphs
  rw [hpc]
  simp [startRaw, hid, goRaw]

/-- C3 witness: the empty-text theorem applied to the concrete section. -/
theorem claim_C3_witness :
    extract_paragraphs (Elem.node "Section" [] none [mkPara "E" none] none) {} "ts"
        = [newRecord {} "ts" "E" (mkPara "E" none)]
      ∧ (newRecord {} "ts" "E" (mkPara "E" none)).texte = "" :=
  ⟨(claim_C3_empty_text (Elem.node "Section" [] none [mkPara "E" none] none) {} "ts" "E"
      (mkPara "E" none) rfl rfl rfl).1,
   (claim_C3_empty_text (Elem.node "Section" [] none [mkPara "E" none] none) {} "ts" "E"
      (mkPara "E" none) rfl rfl rfl).2.1⟩

/-- C4 counterexample: `exSec4` has a direct id-bearing `Para A` outside its
one subsection, but `extract_sections` emits only the subsection's `B` —
section-level paragraphs outside subsections are not checked for or
included. -/
theorem claim_C4_counterexample :
    (idsOf (paraChildren exSec4)).map Prod.fst = ["A"]
      ∧ (extract_sections exTreeSubsec {} "ts").map (fun r => r.para_id) = ["B"] :=
  ⟨rfl, rfl⟩

/-- C4 amended: for a section with at least one subsection, paragraphs are
collected only per subsection (each scoped to its own subsection, so none is
double-counted), and every emitted record's identifier comes from a
subsection's own direct `Para` children — direct section-level paragraphs
outside every subsection are NOT included. -/
theorem claim_C4_subsection_scoping (md : Metadata) (ts : String) (s : Elem)
    (hsubs : subsOf s ≠ []) :
    sectionDocs md ts s
        = (subsOf s).flatMap (fun ss => extract_paragraphs ss (ssCtxOf (sectionCtxOf md s) ss) ts)
      ∧ ∀ r ∈ sectionDocs md ts s,
          r.para_id ∈ (subsOf s).flatMap (fun ss => (idsOf (paraChildren ss)).map Prod.fst) := by
  have hempty : (subsOf s).isEmpty = false := by
    cases hs : subsOf s with
    | nil => exact absurd hs hsubs
    | cons a l => rfl
  have heq : sectionDocs md ts s
      = (subsOf s).flatMap (fun ss => extract_paragraphs ss (ssCtxOf (sectionCtxOf md s) ss) ts) := by
    show (if (subsOf s).isEmpty = true then extract_paragraphs s (sectionCtxOf md s) ts
        else (subsOf s).flatMap fun ss => extract_paragraphs ss (ssCtxOf (sectionCtxOf md s) ss) ts)
      = (subsOf s).flatMap fun ss => extract_paragraphs ss (ssCtxOf (sectionCtxOf md s) ss) ts
    rw [hempty]
    simp
  refine ⟨heq, ?_⟩
  intro r hr
  rw [heq] at hr
  rcases List.mem_flatMap.mp hr with ⟨ss, hss, hmem⟩
  exact List.mem_flatMap.mpr ⟨ss, hss, para_id_mem ss _ ts r hmem⟩

/-- C4 witness: the scoping theorem applied to the concrete section. -/
theorem claim_C4_witness :
    sectionDocs {} "ts" exSec4
        = (subsOf exSec4).flatMap
            (fun ss => extract_paragraphs ss (ssCtxOf (sectionCtxOf {} exSec4) ss) "ts")
      ∧ ∀ r ∈ sectionDocs {} "ts" exSec4,
          r.para_id ∈ (subsOf exSec4).flatMap (fun ss => (idsOf (paraChildren ss)).map Prod.fst) :=
  claim_C4_subsection_scoping {} "ts" exSec4 (List.cons_ne_nil _ _)

/-- C5 counterexample: `exTreeVote` contains a section with a voting-result
subtree whose `Pour` value parses to 42, yet the section's last (only)
emitted record carries no vote: `votes_pour` is absent and `vote_present`
is false — the pipeline never attaches the vote record. -/
theorem claim_C5_counterexample :
    extract_vote exSecVote = .ok (some { votes_pour := some 42 })
      ∧ (extract_sections exTreeVote {} "ts").map (fun r => (r.para_id, r.votes_pour, r.vote_present))
          = [("P", none, false)] :=
  ⟨rfl, rfl⟩

/-- C5 amended: `extract_vote` itself behaves as claimed — no
voting-result subtree yields none, and a subtree with only the votes-for
value populated yields a vote record with only `votes_pour` set — but
`extract_sections` in transform.py never calls it: every emitted record has
`vote_present` false and all four vote fields absent, so no vote record is
attached to the last paragraph of a voting section. -/
theorem claim_C5_vote_extractor :
    (∀ s : Elem, findDesc s "ResultatVote" = none → extract_vote s = .ok none)
      ∧ (∀ (s v e : Elem) (n : Int),
          findDesc s "ResultatVote" = some v →
          findValeur v "NombreVotants" = none →
          findValeur v "NombreSuffrageExprime" = none →
          findValeur v "Pour" = some e → pyIntOfText e.text = some n →
          findValeur v "Contre" = none →
          extract_vote s = .ok (some { votes_pour := some n }))
      ∧ (∀ (root : Elem) (md : Metadata) (ts : String) (r : ParaRecord),
          r ∈ extract_sections root md ts →
          r.vote_present = false ∧ r.nombre_votants = none
            ∧ r.nombre_suffrages_exprimes = none ∧ r.votes_pour = none
            ∧ r.votes_contre = none) := by
  refine ⟨?_, ?_, ?_⟩
  · intro s h
    unfold extract_vote
    rw [h]
  · intro s v e n h hv hsuf hp hn hc
    unfold extract_vote
    rw [h]
    simp [voteStep, reqInt, hv, hsuf, hp, hc, hn, Except.bind, Except.map]
  · intro root md ts r hr
    exact extract_sections_no_vote root md ts r hr

/-- C5 witness: the vote-extractor theorem applied to concrete sections and
the concrete record emitted for the voting section. -/
theorem claim_C5_witness :
    extract_vote (Elem.node "Section" [] none [] none) = .ok none
      ∧ extract_vote exSecVote = .ok (some { votes_pour := some 42 })
      ∧ ((newRecord (sectionCtxOf {} exSecVote) "ts" "P"
            (mkPara "P" (some "texte adopté"))).vote_present = false
          ∧ (newRecord (sectionCtxOf {} exSecVote) "ts" "P"
              (mkPara "P" (some "texte adopté"))).nombre_votants = none
          ∧ (newRecord (sectionCtxOf {} exSecVote) "ts" "P"
              (mkPara "P" (some "texte adopté"))).nombre_suffrages_exprimes = none
          ∧ (newRecord (sectionCtxOf {} exSecVote) "ts" "P"
              (mkPara "P" (some "texte adopté"))).votes_pour = none
          ∧ (newRecord (sectionCtxOf {} exSecVote) "ts" "P"
              (mkPara "P" (some "texte adopté"))).votes_contre = none) :=
  ⟨claim_C5_vote_extractor.1 _ rfl,
   claim_C5_vote_extractor.2.1 exSecVote exVoteNode exValeurNode 42 rfl rfl rfl rfl rfl rfl,
   claim_C5_vote_extractor.2.2 exTreeVote {} "ts" _ (by decide)⟩

/-- C6 counterexample: the string with five dash tokens but no weekday or
month name is not in the Weekday-DD-MM-MonthName-YYYY format, yet
`parse_date` returns a non-null reassembled string instead of null. -/
theorem claim_C6_counterexample :
    specWeekdayDateFormat "a-1-2-3" = false ∧ parse_date "a-1-2-3" = some "3-02-01" :=
  ⟨rfl, rfl⟩

/-- C6 amended: `parse_date` maps the example date to its ISO form and
never raises; it returns null exactly when the input has fewer than three
dash-separated tokens (such as "garbage"), and for any malformed input with
three or more tokens it returns a non-null reassembled string rather than
null. -/
theorem claim_C6_parse_date :
    parse_date "Mercredi-22-05-Mai-2013" = some "2013-05-22"
      ∧ (∀ s : String, (splitOnChar '-' s.toList).length < 3 → parse_date s = none)
      ∧ (∀ s : String, 3 ≤ (splitOnChar '-' s.toList).length → (parse_date s).isSome) := by
  refine ⟨rfl, ?_, ?_⟩
  · intro s h
    unfold parse_date
    rw [if_neg (by omega)]
  · intro s h
    unfold parse_date
    rw [if_pos h]
    rfl

/-- C6 witness: the parse theorem applied to the two concrete inputs. -/
theorem claim_C6_witness :
    parse_date "Mercredi-22-05-Mai-2013" = some "2013-05-22" ∧ parse_date "garbage" = none :=
  ⟨claim_C6_parse_date.1, claim_C6_parse_date.2.1 "garbage" (by decide)⟩

/-- C7 counterexample: a `Metadonnees` block whose `PublicationNumero` text
is non-numeric makes `extract_metadata` raise (the unguarded `int(...)`),
instead of leaving the field null and continuing. -/
theorem claim_C7_counterexample : extract_metadata exTreeBadMeta = .error () :=
  rfl

/-- C7 amended: `extract_metadata` leaves fields of absent nodes unset (an
absent `Metadonnees` block yields the empty record, an absent
`PublicationNumero` leaves that field null), stores null for a session date
whose text does not parse while continuing with the remaining fields, and
sets the year and month only when the session date parsed successfully —
but a non-numeric integer field raises out of `extract_metadata` rather
than being left null. -/
theorem claim_C7_field_handling (root : Elem) :
    (findDesc root "Metadonnees" = none → extract_metadata root = .ok {})
      ∧ (∀ (meta e : Elem) (md' : Metadata),
          findDesc root "Metadonnees" = some meta →
          findChild meta "DateSeance" = some e → parse_date_opt e.text = none →
          extract_metadata root = .ok md' →
          md'.date_seance = some none ∧ md'.annee = none ∧ md'.mois = none)
      ∧ (∀ (meta : Elem) (md' : Metadata),
          findDesc root "Metadonnees" = some meta →
          findChild meta "PublicationNumero" = none →
          extract_metadata root = .ok md' → md'.publication_numero = none)
      ∧ (∀ md' : Metadata, extract_metadata root = .ok md' → md'.annee.isSome →
          ∃ meta e, findDesc root "Metadonnees" = some meta
            ∧ findChild meta "DateSeance" = some e ∧ (parse_date_opt e.text).isSome) := by
  refine ⟨?_, ?_, ?_, ?_⟩
  · intro h
    unfold extract_metadata
    rw [h]
  · intro meta e md' hm hf hp hok
    rcases extract_metadata_decomp root meta md' hm hok with ⟨m1, m2, m3, m4, m5, m6, h1, h2, h3, h4, h5, h6, h7⟩
    have e3 : m3 = { m2 with date_seance := some none } := stepDateSeance_parse_none meta m2 m3 e hf hp h3
    rcases stepSessionNom_pres meta m3 m4 h4 with ⟨p41, p42, p43, _⟩
    rcases stepSessionParl_pres meta m4 m5 h5 with ⟨p51, p52, p53, _⟩
    rcases stepLegislature_pres meta m5 m6 h6 with ⟨p61, p62, p63, _⟩
    rcases stepPremierePage_pres meta m6 md' h7 with ⟨p71, p72, p73, _⟩
    rcases stepPublication_pres meta {} m1 h1 with ⟨q11, q12, q13⟩
    rcases stepDateParution_pres meta m1 m2 h2 with ⟨q21, q22, q23, _⟩
    refine ⟨?_, ?_, ?_⟩
    · rw [p71, p61, p51, p41, e3]
    · rw [p72, p62, p52, p42, e3]
      show m2.annee = none
      rw [q22, q12]
    · rw [p73, p63, p53, p43, e3]
      show m2.mois = none
      rw [q23, q13]
  · intro meta md' hm hf hok
    rcases extract_metadata_decomp root meta md' hm hok with ⟨m1, m2, m3, m4, m5, m6, h1, h2, h3, h4, h5, h6, h7⟩
    have e1 : m1 = {} := stepPublication_none meta {} m1 hf h1
    rcases stepDateParution_pres meta m1 m2 h2 with ⟨_, _, _, q2⟩
    have q3 := stepDateSeance_pres_pub meta m2 m3 h3
    rcases stepSessionNom_pres meta m3 m4 h4 with ⟨_, _, _, q4⟩
    rcases stepSessionParl_pres meta m4 m5 h5 with ⟨_, _, _, q5⟩
    rcases stepLegislature_pres meta m5 m6 h6 with ⟨_, _, _, q6⟩
    rcases stepPremierePage_pres meta m6 md' h7 with ⟨_, _, _, q7⟩
    rw [q7, q6, q5, q4, q3, q2, e1]
  · intro md' hok hsome
    cases hm : findDesc root "Metadonnees" with
    | none =>
      unfold extract_metadata at hok
      rw [hm] at hok
      cases hok
      simp at hsome
    | some meta =>
      rcases extract_metadata_decomp root meta md' hm hok with ⟨m1, m2, m3, m4, m5, m6, h1, h2, h3, h4, h5, h6, h7⟩
      rcases stepPublication_pres meta {} m1 h1 with ⟨_, q12, _⟩
      rcases stepDateParution_pres meta m1 m2 h2 with ⟨_, q22, _, _⟩
      have hm2 : m2.annee = none := by rw [q22, q12]
      rcases stepSessionNom_pres meta m3 m4 h4 with ⟨_, p42, _, _⟩
      rcases stepSessionParl_pres meta m4 m5 h5 with ⟨_, p52, _, _⟩
      rcases stepLegislature_pres meta m5 m6 h6 with ⟨_, p62, _, _⟩
      rcases stepPremierePage_pres meta m6 md' h7 with ⟨_, p72, _, _⟩
      have hm3 : m3.annee.isSome := by
        rw [← p42, ← p52, ← p62, ← p72]
        exact hsome
      rcases stepDateSeance_annee_some meta m2 m3 h3 hm2 hm3 with ⟨e, he, hpe⟩
      exact ⟨meta, e, rfl, he, hpe⟩

/-- C7 witness: the field-handling theorem applied to concrete trees — a
document without metadata, and one whose session date text is malformed. -/
theorem claim_C7_witness :
    extract_metadata (Elem.node "Doc" [] none [] none) = .ok {}
      ∧ (({ date_seance := some none } : Metadata).date_seance = some none
          ∧ ({ date_seance := some none } : Metadata).annee = none
          ∧ ({ date_seance := some none } : Metadata).mois = none) :=
  ⟨(claim_C7_field_handling (Elem.node "Doc" [] none [] none)).1 rfl,
   (claim_C7_field_handling exTreeBadDate).2.1 exMetaNode exDSNode { date_seance := some none }
     rfl rfl rfl rfl⟩

/-- C8: in create-if-absent mode the bulk writer never aborts on per-record
rejections: for every store state and document list it returns the three
counts, where a rejection of a record whose key already exists (a
version-conflict outcome) is classified as benign/skipped and any other
rejection (a malformed-record outcome) as a real error, the two counts are
reported separately, and the success count of the remaining records is
reported as well — the three counts always summing to the number of
documents. -/
theorem claim_C8_create_classification (mal : ParaRecord → Bool) (keys : List String)
    (documents : List ParaRecord) :
    bulk_index_create mal keys documents
        = ((createOutcomes mal keys documents).count none,
           (createOutcomes mal keys documents).count (some vceMsg),
           (createOutcomes mal keys documents).count (some malformedMsg))
      ∧ (createOutcomes mal keys documents).count none
          + (createOutcomes mal keys documents).count (some vceMsg)
          + (createOutcomes mal keys documents).count (some malformedMsg)
          = documents.length := by
  rcases bulkCreate_spec mal documents keys with ⟨h1, h2, h3, h4⟩
  refine ⟨?_, h4⟩
  simp only [bulk_index_create]
  rw [h1, h3, h2]
  simp

/-- C9 counterexample: running the pipeline twice over the same tree in
replace mode at two wall-clock timestamps yields a final store with the same
keys as a single run but different field values (the second run's
`extraction_timestamp` overwrites the first), so the final record set is not
identical to the single run's. -/
theorem claim_C9_counterexample :
    storeKeys (runOnce exTreeVote "t2" (runOnce exTreeVote "t1" ([], 0))).1
        = storeKeys (runOnce exTreeVote "t1" ([], 0)).1
      ∧ (runOnce exTreeVote "t2" (runOnce exTreeVote "t1" ([], 0))).1
          ≠ (runOnce exTreeVote "t1" ([], 0)).1 := by
  exact ⟨rfl, by decide⟩

/-- C9 amended: when every record of a run carries a non-empty `para_id`,
running the full pipeline twice over the same tree in replace mode yields
exactly the final record set of a single (second) run: the same keys with
no duplicated records, every field equal to the single run's — so the only
deviation from the original claim is that `extraction_timestamp` carries
the latest run's wall clock. -/
theorem claim_C9_replace_idempotent (tree : Elem) (ts1 ts2 : String)
    (h : ∀ r ∈ pipelineDocs tree ts1, r.para_id ≠ "") :
    (runOnce tree ts2 (runOnce tree ts1 ([], 0))).1 = (runOnce tree ts2 ([], 0)).1
      ∧ (storeKeys (runOnce tree ts2 (runOnce tree ts1 ([], 0))).1).Nodup := by
  have hids : (pipelineDocs tree ts2).map (fun r => r.para_id)
      = (pipelineDocs tree ts1).map (fun r => r.para_id) := pipelineDocs_ids tree ts2 ts1
  have h2 : ∀ r ∈ pipelineDocs tree ts2, r.para_id ≠ "" := by
    intro r hr
    have hmem : r.para_id ∈ (pipelineDocs tree ts2).map (fun r => r.para_id) :=
      List.mem_map_of_mem _ hr
    rw [hids] at hmem
    rcases List.mem_map.mp hmem with ⟨r', hr', heq⟩
    rw [← heq]
    exact h r' hr'
  have hnodupNil : (storeKeys ([] : Store)).Nodup := by simp [storeKeys]
  have hnodup1 : (storeKeys (runOnce tree ts1 ([], 0)).1).Nodup :=
    nodup_keys_bulkReplace (pipelineDocs tree ts1) [] 0 hnodupNil
  constructor
  · show (bulkReplace (runOnce tree ts1 ([], 0)) (pipelineDocs tree ts2)).1
      = (bulkReplace ([], 0) (pipelineDocs tree ts2)).1
    have habs := bulkReplace_absorb (pipelineDocs tree ts2) []
      (runOnce tree ts1 ([], 0)).1 0 (runOnce tree ts1 ([], 0)).2 h2 hnodupNil hnodup1
      ?_ ?_
    · exact habs
    · exact storeKeys_bulkReplace_keydep (pipelineDocs tree ts1) (pipelineDocs tree ts2)
        [] [] 0 0 rfl hids.symm h
    · intro k hk
      have hk1 : k ∉ (pipelineDocs tree ts1).map (fun r => r.para_id) := by
        rw [← hids]; exact hk
      show lookupStore (bulkReplace ([], 0) (pipelineDocs tree ts1)).1 k = lookupStore [] k
      exact lookup_bulkReplace_not_mem (pipelineDocs tree ts1) [] 0 k h hk1
  · exact nodup_keys_bulkReplace (pipelineDocs tree ts2) (runOnce tree ts1 ([], 0)).1
      (runOnce tree ts1 ([], 0)).2 hnodup1

/-- C9 witness: the idempotence theorem applied to the concrete tree with
two distinct run timestamps. -/
theorem claim_C9_witness :
    (runOnce exTreeVote "t2" (runOnce exTreeVote "t1" ([], 0))).1
        = (runOnce exTreeVote "t2" ([], 0)).1
      ∧ (storeKeys (runOnce exTreeVote "t2" (runOnce exTreeVote "t1" ([], 0))).1).Nodup :=
  claim_C9_replace_idempotent exTreeVote "t1" "t2" (by decide)

end DataDebat
